import Mathlib

/-!
Verification development for the spreadsheet-to-CSV mapping core
(`src/unnamed/part_001`): coordinate model, range extraction, records
mapping, assignments (pair expansion), auto sheet alignment, filter
evaluation, duplicate detection, CSV codec and CSV diff.

Strings are embedded as `List Char` (JS strings are sequences of UTF-16
code units; all operations used by the core are per-character).  JS
`Map`s are embedded as association lists updated by `alistSet`
(overwrite-or-append, preserving insertion order, exactly the JS `Map.set`
behaviour).  JS objects used as records are embedded the same way.
-/

namespace XP

/-- Character list standing for a JS string. -/
abbrev Str := List Char

/-- Whitespace as stripped by JS `String.prototype.trim`
(the code points that actually occur in spreadsheet text). -/
def isWs (c : Char) : Bool :=
  c = ' ' ∨ c = '\t' ∨ c = '\n' ∨ c = '\r' ∨ c = '\x0b' ∨ c = '\x0c'

/-- Left part of `trim`: drop leading whitespace. -/
def trimLeft : Str → Str
  | [] => []
  | c :: rest => if isWs c then trimLeft rest else c :: rest

/-- JS `String.prototype.trim`: strip leading and trailing whitespace. -/
def jsTrim (s : Str) : Str :=
  (trimLeft (trimLeft s).reverse).reverse

/-- Embedding of `clamp` (part_001 line 71). -/
def clamp (n lo hi : Int) : Int := max lo (min hi n)

/-- Inclusive index interval `lo..hi` (the `for (let x = lo; x <= hi; x++)`
iteration space). -/
def natRange (lo hi : Nat) : List Nat := (List.range (hi + 1 - lo)).map (lo + ·)

/-- Embedding of `RangeA1` (part_001 line 25).  Fields are `Nat` because
every range reaching the core comes out of `parseA1Range` (indices `≥ 0`)
and `normalizeRange` keeps them in grid bounds. -/
structure RangeA1 where
  r0 : Nat
  c0 : Nat
  r1 : Nat
  c1 : Nat
deriving DecidableEq

/-- Grid of string cells (`type Grid = string[][]`, part_001 line 21). -/
abbrev Grid := List (List Str)

/-- Embedding of the defensive cell read `(grid[r]?.[c] ?? "").toString()`. -/
def cellAt (grid : Grid) (r c : Nat) : Str := (grid.getD r []).getD c []

/-- Embedding of `normalizeRange` (part_001 line 109): reorder the two
corners and clamp to grid bounds. -/
def normalizeRange (rng : RangeA1) (grid : Grid) : RangeA1 :=
  let rows := grid.length
  let cols := (grid.headD []).length
  { r0 := (clamp (min rng.r0 rng.r1) 0 (max 0 (rows - 1))).toNat
    r1 := (clamp (max rng.r0 rng.r1) 0 (max 0 (rows - 1))).toNat
    c0 := (clamp (min rng.c0 rng.c1) 0 (max 0 (cols - 1))).toNat
    c1 := (clamp (max rng.c0 rng.c1) 0 (max 0 (cols - 1))).toNat }

/-- Embedding of `getRange2D` (part_001 line 119): inclusive rectangular
slice of the grid, row-major. -/
def getRange2D (grid : Grid) (rng : RangeA1) : List (List Str) :=
  let n := normalizeRange rng grid
  (natRange n.r0 n.r1).map (fun r => (natRange n.c0 n.c1).map (fun c => cellAt grid r c))

/-- Embedding of `getRangeVector` (part_001 line 130): single column top to
bottom, single row left to right, otherwise a row-major flatten. -/
def getRangeVector (grid : Grid) (rng : RangeA1) : List Str :=
  let n := normalizeRange rng grid
  let h := n.r1 - n.r0 + 1
  let w := n.c1 - n.c0 + 1
  let block := getRange2D grid n
  if w = 1 then block.map (fun r => r.getD 0 [])
  else if h = 1 then block.headD []
  else block.flatten

/-- Embedding of `lettersToCol` (part_001 line 79): base-26 letters with
`A = 1`, result 0-based. -/
def lettersToCol (letters : Str) : Int :=
  (letters.foldl (fun n c => n * 26 + ((c.toUpper.toNat : Int) - 64)) 0) - 1

/-- Decimal digit run to a number (the `parseInt(m[2], 10)` call on the
digit group matched by the `^([A-Z]+)(\d+)$` pattern). -/
def digitsToNat (ds : Str) : Nat :=
  ds.foldl (fun n c => n * 10 + (c.toNat - 48)) 0

/-- Splitting a string on a separator character (JS `String.split`). -/
def splitChar (sep : Char) : Str → List Str
  | [] => [[]]
  | c :: rest =>
    if c = sep then [] :: splitChar sep rest
    else
      match splitChar sep rest with
      | [] => [[c]]
      | h :: t => (c :: h) :: t

/-- Embedding of the cell parser inside `parseA1Range`: the regular
expression `^([A-Z]+)(\d+)$` on an upper-cased token, yielding a 0-based
row/column pair. -/
def parseCell (s : Str) : Option (Nat × Nat) :=
  let letters := s.takeWhile (fun c => 'A' ≤ c ∧ c ≤ 'Z')
  let rest := s.drop letters.length
  if letters = [] then none
  else if rest = [] then none
  else if rest.all (fun c => '0' ≤ c ∧ c ≤ '9') then
    let c := lettersToCol letters
    let r : Int := (digitsToNat rest : Int) - 1
    if r < 0 ∨ c < 0 then none else some (r.toNat, c.toNat)
  else none

/-- Embedding of `parseA1Range` (part_001 line 86): trim, upper-case,
split on `:`, parse one or two cells (extra `:` segments are ignored,
as with the source's `parts[0]`/`parts[1]` access). -/
def parseA1Range (a1 : Str) : Option RangeA1 :=
  let cleaned := (jsTrim a1).map Char.toUpper
  if cleaned = [] then none
  else
    let parts := splitChar ':' cleaned
    match parseCell (parts.getD 0 []) with
    | none => none
    | some (ar, ac) =>
      if parts.length = 1 then some ⟨ar, ac, ar, ac⟩
      else
        match parseCell (parts.getD 1 []) with
        | none => none
        | some (br, bc) => some ⟨ar, ac, br, bc⟩

/-- Association-list lookup (JS `Map.get` / object property read). -/
def alistLookup {κ α : Type} [DecidableEq κ] (m : List (κ × α)) (k : κ) : Option α :=
  (m.find? (fun p => p.1 = k)).map Prod.snd

/-- Association-list update (JS `Map.set` / object property write):
overwrite the existing entry or append a new one. -/
def alistSet {κ α : Type} [DecidableEq κ] (m : List (κ × α)) (k : κ) (v : α) : List (κ × α) :=
  if m.any (fun p => p.1 = k) then m.map (fun p => if p.1 = k then (k, v) else p)
  else m ++ [(k, v)]

/-- Record embedding: a JS object mapping output headers to values. -/
abbrev RecordMap := List (Str × Str)

/-- Embedding of `(row[h] ?? "").toString()`. -/
def lookupField (r : RecordMap) (k : Str) : Str := (alistLookup r k).getD []

/-- Embedding of `RoleKey` (part_001 line 142).  The source encodes the
key as the string `"r:12"` / `"c:30"`; `rowKey`/`colKey` are injective with
disjoint images and `parseRoleKey` inverts them, so a tagged index is a
faithful model of that key space. -/
inductive RoleKey where
  | row (idx : Nat)
  | col (idx : Nat)
deriving DecidableEq

/-- Warning text of the block branch of `getRolesMap`. -/
def blockWarning : Str := ("Range is a block; values are joined per row.").data

/-- Array join with a separator (JS `Array.prototype.join`). -/
def joinList (sep : Str) : List Str → Str
  | [] => []
  | [x] => x
  | x :: xs => x ++ sep ++ joinList sep xs

/-- Result of `getRolesMap`: the keyed value map (a JS `Map`, here an
association list in insertion order), the key kind, and the optional
block warning. -/
structure RolesMapResult where
  map : List (RoleKey × Str)
  keyKind : Bool
  warning : Option Str
deriving DecidableEq

/-- Embedding of `getRolesMap` (part_001 line 158): single column maps by
row, single row maps by column, a block joins the non-empty trimmed cells
of each row with one space (with a warning).  `keyKind` is `true` for
row-keyed results and `false` for column-keyed ones. -/
def getRolesMap (grid : Grid) (rng : RangeA1) : RolesMapResult :=
  let n := normalizeRange rng grid
  let h := n.r1 - n.r0 + 1
  let w := n.c1 - n.c0 + 1
  if w = 1 then
    { map := (natRange n.r0 n.r1).map (fun r => (RoleKey.row r, jsTrim (cellAt grid r n.c0)))
      keyKind := true, warning := none }
  else if h = 1 then
    { map := (natRange n.c0 n.c1).map (fun c => (RoleKey.col c, jsTrim (cellAt grid n.r0 c)))
      keyKind := false, warning := none }
  else
    { map := (natRange n.r0 n.r1).map (fun r =>
        (RoleKey.row r,
         joinList [' '] (((natRange n.c0 n.c1).map (fun c => jsTrim (cellAt grid r c))).filter (· ≠ []))))
      keyKind := true, warning := some blockWarning }

/-- Embedding of the `mustQuote` test in `csvEscape` (the regular
expression `[",\n\r]`). -/
def mustQuote (v : Str) : Bool :=
  v.any (fun c => c = '"' ∨ c = ',' ∨ c = '\n' ∨ c = '\r')

/-- Embedding of `v.replace(/"/g, '""')`. -/
def doubleQuotes : Str → Str
  | [] => []
  | c :: rest => if c = '"' then '"' :: '"' :: doubleQuotes rest else c :: doubleQuotes rest

/-- Embedding of `csvEscape` (part_001 line 190). -/
def csvEscape (v : Str) : Str :=
  let escaped := doubleQuotes v
  if mustQuote v then '"' :: (escaped ++ ['"']) else escaped

/-- Embedding of `toCsv` (part_001 line 197): header line then one line
per record, fields in header order, lines joined with `\n`. -/
def toCsv (headers : List Str) (rows : List RecordMap) : Str :=
  joinList ['\n']
    (joinList [','] (headers.map csvEscape) ::
     rows.map (fun row => joinList [','] (headers.map (fun h => csvEscape (lookupField row h)))))

/-- Base word used by `makeUniqueHeaders` for blank headers. -/
def columnWord : Str := ("Column").data

/-- Decimal rendering of a number (JS template `${n}`). -/
def natToStr (n : Nat) : Str := (Nat.repr n).data

/-- Worker of `makeUniqueHeaders`: `seen` is the `Map` from base name to
occurrence count. -/
def makeUniqueHeadersAux (seen : List (Str × Nat)) : List Str → List Str
  | [] => []
  | h :: rest =>
    let base := if jsTrim h = [] then columnWord else jsTrim h
    let n := (alistLookup seen base).getD 0 + 1
    (if n = 1 then base else base ++ '_' :: natToStr n) ::
      makeUniqueHeadersAux (alistSet seen base n) rest

/-- Embedding of `makeUniqueHeaders` (part_001 line 228). -/
def makeUniqueHeaders (headers : List Str) : List Str :=
  makeUniqueHeadersAux [] headers

/-- The base name `h.trim() || "Column"` a header contributes to
`makeUniqueHeaders`. -/
def baseOf (h : Str) : Str := if jsTrim h = [] then columnWord else jsTrim h

/-- Embedding of `text.replace(/\r\n/g, "\n")` (left-to-right,
non-overlapping). -/
def replaceCRLF : Str → Str
  | [] => []
  | '\r' :: '\n' :: rest => '\n' :: replaceCRLF rest
  | c :: rest => c :: replaceCRLF rest

/-- Embedding of `text.replace(/\r/g, "\n")`. -/
def replaceCR (s : Str) : Str := s.map (fun c => if c = '\r' then '\n' else c)

/-- Embedding of the character loop of `parseCsvText` (part_001 lines
243-289): `cur` is the field being built, `row` the fields of the current
record, `acc` the finished records; the two trailing pushes of the source
(`row.push(cur); rowsRaw.push(row)`) are the `[]` case. -/
def parseRows : Str → Bool → Str → List Str → List (List Str) → List (List Str)
  | [], _, cur, row, acc => acc ++ [row ++ [cur]]
  | '"' :: '"' :: rest, true, cur, row, acc => parseRows rest true (cur ++ ['"']) row acc
  | '"' :: rest, true, cur, row, acc => parseRows rest false cur row acc
  | ch :: rest, true, cur, row, acc => parseRows rest true (cur ++ [ch]) row acc
  | ch :: rest, false, cur, row, acc =>
    if ch = '"' then parseRows rest true cur row acc
    else if ch = ',' then parseRows rest false [] (row ++ [cur]) acc
    else if ch = '\n' then parseRows rest false [] [] (acc ++ [row ++ [cur]])
    else parseRows rest false (cur ++ [ch]) row acc

/-- Blank-field test `(v ?? "").trim() === ""` used when popping trailing
rows. -/
def isBlankField (v : Str) : Bool := jsTrim v = []

/-- Embedding of the trailing-blank-row pop loop
`while (rowsRaw.length && rowsRaw[last].every(blank)) rowsRaw.pop()`. -/
def dropTrailingBlanks (rowsRaw : List (List Str)) : List (List Str) :=
  (rowsRaw.reverse.dropWhile (fun r => r.all isBlankField)).reverse

/-- Field name `headers[i] || Column{i+1}` used when objects are built
from a parsed row. -/
def fieldName (headers : List Str) (i : Nat) : Str :=
  let h := headers.getD i []
  if h = [] then columnWord ++ natToStr (i + 1) else h

/-- Embedding of `parseCsvText` (part_001 line 240). -/
def parseCsvText (text : Str) : List Str × List RecordMap :=
  let s := replaceCR (replaceCRLF text)
  let rowsRaw := dropTrailingBlanks (parseRows s false [] [] [])
  let headers := (rowsRaw.headD []).map jsTrim
  let data := rowsRaw.tail
  let rows := data.map (fun arr =>
    (List.range headers.length).foldl
      (fun r i => alistSet r (fieldName headers i) (arr.getD i [])) [])
  (headers, rows)

/-- The key separator `"␟"` (symbol for unit separator). -/
def sepChar : Char := Char.ofNat 0x241F

/-- Row key shared by `compareCsv` and `findDuplicates`: the trimmed
values of the given headers joined with `sepChar`. -/
def rowKeyOf (headers : List Str) (r : RecordMap) : Str :=
  joinList [sepChar] (headers.map (fun h => jsTrim (lookupField r h)))

/-- Count-map building loop `counts.set(k, (counts.get(k) ?? 0) + 1)`
shared by `compareCsv` and `findDuplicates`. -/
def bumpCounts (keyOf : RecordMap → Str) : List RecordMap → List (Str × Nat) → List (Str × Nat)
  | [], m => m
  | r :: rest, m =>
    bumpCounts keyOf rest (alistSet m (keyOf r) ((alistLookup m (keyOf r)).getD 0 + 1))

/-- Count read `(counts.get(k) ?? 0)`. -/
def cnt (m : List (Str × Nat)) (k : Str) : Nat := (alistLookup m k).getD 0

/-- Embedding of one "only in" emission pass of `compareCsv` (part_001
lines 341-358): walk one side's rows; when the row's key still counts
strictly more on this side (`mine`) than on the other (`other`), report
the row and decrement this side's count.  Returns the reported rows and
the final state of `mine` (which the source's second pass then reads). -/
def emitPass (keyOf : RecordMap → Str) :
    List RecordMap → List (Str × Nat) → List (Str × Nat) → List RecordMap × List (Str × Nat)
  | [], mine, _ => ([], mine)
  | r :: rest, mine, other =>
    let k := keyOf r
    let mc := cnt mine k
    let oc := cnt other k
    if oc < mc then
      let res := emitPass keyOf rest (alistSet mine k (mc - 1)) other
      (r :: res.1, res.2)
    else emitPass keyOf rest mine other

/-- Headers used for keying by `compareCsv`: the common headers if any,
else the suffix-deduplicated concatenation of both header lists. -/
def compareKeyHeaders (leftCsv rightCsv : Str) : List Str :=
  let leftHeaders := (parseCsvText leftCsv).1.filter (· ≠ [])
  let rightHeaders := (parseCsvText rightCsv).1.filter (· ≠ [])
  let commonHeaders := leftHeaders.filter (fun h => rightHeaders.contains h)
  if commonHeaders.length ≠ 0 then commonHeaders
  else makeUniqueHeaders (leftHeaders ++ rightHeaders)

/-- Result of `compareCsv` (the `summary` diagnostic string of the source
is presentation text assembled from the lengths below and is not
modelled). -/
structure CompareResult where
  onlyInLeft : List RecordMap
  onlyInRight : List RecordMap
  headers : List Str

/-- Embedding of `compareCsv` (part_001 line 305): parse both sides,
key rows by the common headers' trimmed values (or the fallback header
list), build per-side multisets, then run the two emission passes (the
second pass reads the left counts as mutated by the first). -/
def compareCsv (leftCsv rightCsv : Str) : CompareResult :=
  let L := parseCsvText leftCsv
  let R := parseCsvText rightCsv
  let headersForKey := compareKeyHeaders leftCsv rightCsv
  let keyOf := rowKeyOf headersForKey
  let leftCounts := bumpCounts keyOf L.2 []
  let rightCounts := bumpCounts keyOf R.2 []
  let leftPass := emitPass keyOf L.2 leftCounts rightCounts
  let rightPass := emitPass keyOf R.2 rightCounts leftPass.2
  { onlyInLeft := leftPass.1, onlyInRight := rightPass.1, headers := headersForKey }

/-- Embedding of `findDuplicates` (part_001 line 512). -/
def findDuplicates (rows : List RecordMap) (headers : List Str) :
    Nat × Nat × List RecordMap :=
  let keyOf := rowKeyOf headers
  let counts := bumpCounts keyOf rows []
  let duplicateRows := rows.filter (fun r => 1 < cnt counts (keyOf r))
  let groups := (counts.filter (fun p => 1 < p.2)).length
  (groups, duplicateRows.length, duplicateRows)

/-- Embedding of `FilterOp` (part_001 line 37). -/
inductive FilterOp where
  | eq | neq | lt | gt | like | notLike | isEmptyOp | isNotEmptyOp
deriving DecidableEq

/-- Embedding of `FilterSource` (part_001 line 38). -/
inductive FilterSource where
  | output | sheet
deriving DecidableEq

/-- Embedding of `FilterCondition` (part_001 line 40); the `id` field is
UI-only state and carries no pipeline meaning. -/
structure FilterCondition where
  source : FilterSource
  field : Str
  sheetRangeA1 : Str
  op : FilterOp
  value : Str

/-- Embedding of `isNegOp` (part_001 line 406). -/
def isNegOp (op : FilterOp) : Bool := op = .neq ∨ op = .notLike

/-- Embedding of `isEmptyValue` (part_001 line 552). -/
def isEmptyValue (s : Str) : Bool := jsTrim s = []

/-- Lower-casing of a JS string (`toLowerCase`, on the characters the
core compares). -/
def strLower (s : Str) : Str := s.map Char.toLower

/-- Embedding of `evalOp` (part_001 line 557).  The `lt`/`gt` arms call
`compareForLtGt`, whose numeric/date/locale comparison cascade depends on
the host (`Number`, `Date.parse`, `localeCompare`); it is abstracted as
the `cmp` argument returning the sign of the comparison, `none` standing
for the source's `null`. -/
def evalOp (cmp : Str → Str → Option Int) (left : Str) (op : FilterOp) (right : Str) : Bool :=
  match op with
  | .isEmptyOp => isEmptyValue left
  | .isNotEmptyOp => ¬ isEmptyValue left
  | .eq => jsTrim left = jsTrim right
  | .neq => jsTrim left ≠ jsTrim right
  | .like => decide (List.IsInfix (strLower right) (strLower left))
  | .notLike => ¬ decide (List.IsInfix (strLower right) (strLower left))
  | .lt => match cmp left right with
           | some c => c < 0
           | none => false
  | .gt => match cmp left right with
           | some c => 0 < c
           | none => false

/-- Embedding of a produced record: public output fields plus the hidden
provenance `__sheetRow` / `__sheetCol` (kept as a side struct, per the
design note; `none` models an absent property). -/
structure Rec where
  fields : RecordMap
  sheetRow : Option Nat
  sheetCol : Option Nat

/-- Embedding of `sheetValuesAuto` (part_001 line 414): the auto
alignment cascade resolving filter comparison values from a sheet range
given the record's provenance. -/
def sheetValuesAuto (record : Rec) (f : FilterCondition) (grid : Grid) : List Str :=
  match parseA1Range (jsTrim f.sheetRangeA1) with
  | none => []
  | some parsed =>
    let rng := normalizeRange parsed grid
    let rowIdx := record.sheetRow
    let colIdx := record.sheetCol
    let isSingleCol := rng.c0 = rng.c1
    let isSingleRow := rng.r0 = rng.r1
    let tryBothInside : Option (List Str) :=
      match rowIdx, colIdx with
      | some r, some c =>
        if rng.r0 ≤ r ∧ r ≤ rng.r1 ∧ rng.c0 ≤ c ∧ c ≤ rng.c1 then some [cellAt grid r c]
        else none
      | _, _ => none
    let trySingleColRow : Option (List Str) :=
      match rowIdx with
      | some r =>
        if isSingleCol ∧ rng.r0 ≤ r ∧ r ≤ rng.r1 then some [cellAt grid r rng.c0] else none
      | none => none
    let trySingleRowCol : Option (List Str) :=
      match colIdx with
      | some c =>
        if isSingleRow ∧ rng.c0 ≤ c ∧ c ≤ rng.c1 then some [cellAt grid rng.r0 c] else none
      | none => none
    let tryRowSlice : Option (List Str) :=
      match rowIdx with
      | some r =>
        if rng.r0 ≤ r ∧ r ≤ rng.r1 then
          some ((natRange rng.c0 rng.c1).map (fun c => cellAt grid r c))
        else none
      | none => none
    let tryColSlice : Option (List Str) :=
      match colIdx with
      | some c =>
        if rng.c0 ≤ c ∧ c ≤ rng.c1 then
          some ((natRange rng.r0 rng.r1).map (fun r => cellAt grid r c))
        else none
      | none => none
    if isSingleRow ∧ isSingleCol then tryBothInside.getD []
    else
      (tryBothInside <|> trySingleColRow <|> trySingleRowCol <|> tryRowSlice <|> tryColSlice).getD
        ((getRange2D grid rng).flatten)

/-- Left-hand value resolution of one filter condition (part_001 lines
476-483): a singleton for an output-sourced condition, the auto-aligned
sheet values otherwise. -/
def leftValuesFor (record : Rec) (f : FilterCondition) (grid : Grid) : List Str :=
  match f.source with
  | .output => [lookupField record.fields f.field]
  | .sheet => sheetValuesAuto record f grid

/-- Evaluation of one condition of the `passesFilters` loop (part_001
lines 472-502): the value is `true` exactly when the loop body does not
`return false` for this condition. -/
def passesFilter (cmp : Str → Str → Option Int) (record : Rec) (f : FilterCondition)
    (grid : Grid) : Bool :=
  let right := f.value
  let neg := isNegOp f.op
  let leftValues := leftValuesFor record f grid
  if leftValues.length = 0 then neg
  else if f.op = .isEmptyOp ∨ f.op = .isNotEmptyOp then
    leftValues.any (fun lv => evalOp cmp lv f.op [])
  else if neg then leftValues.all (fun lv => evalOp cmp lv f.op right)
  else leftValues.any (fun lv => evalOp cmp lv f.op right)

/-- Embedding of `passesFilters` (part_001 line 471): all conditions must
pass. -/
def passesFilters (cmp : Str → Str → Option Int) (record : Rec)
    (filters : List FilterCondition) (grid : Grid) : Bool :=
  filters.all (fun f => passesFilter cmp record f grid)

/-- One emitted assignment pair: the two labels plus the hidden
provenance of the mark cell (its absolute row and column). -/
structure AssignPair where
  left : Str
  right : Str
  row : Nat
  col : Nat
deriving DecidableEq

/-- Running state of the mark-scan loop of `generateAssignmentsCsv`
(part_001 lines 1233-1295): the emitted records and the diagnostic
counters. -/
structure AssignState where
  outRows : List AssignPair
  totalMarked : Nat
  emitted : Nat
  skippedOutOfBounds : Nat
  skippedMissingA : Nat
  skippedMissingB : Nat
deriving DecidableEq

/-- Initial scan state. -/
def initAssignState : AssignState := ⟨[], 0, 0, 0, 0, 0⟩

/-- Static configuration of the mark scan: label vectors, orientations,
normalized ranges and the lower-cased mark set. -/
structure AssignConfig where
  objA : List Str
  objB : List Str
  objAisVertical : Bool
  objBisHorizontal : Bool
  objAR : RangeA1
  objBR : RangeA1
  matR : RangeA1
  markSet : List Str

/-- The derived A-axis index of the mark at matrix-relative `(i, j)`
(part_001 line 1252): the mark's absolute position re-based against the
start of Object A's own range, along Object A's axis. -/
def idxAOf (cfg : AssignConfig) (i j : Nat) : Int :=
  if cfg.objAisVertical then ((cfg.matR.r0 + i : Nat) : Int) - cfg.objAR.r0
  else ((cfg.matR.c0 + j : Nat) : Int) - cfg.objAR.c0

/-- The derived B-axis index (part_001 line 1253), symmetrically from the
start of Object B's own range. -/
def idxBOf (cfg : AssignConfig) (i j : Nat) : Int :=
  if cfg.objBisHorizontal then ((cfg.matR.c0 + j : Nat) : Int) - cfg.objBR.c0
  else ((cfg.matR.r0 + i : Nat) : Int) - cfg.objBR.r0

/-- Body of the mark-scan loop for one matrix cell at matrix-relative
position `(i, j)` (part_001 lines 1243-1294). -/
def scanCell (cfg : AssignConfig) (i j : Nat) (c : Str) (st : AssignState) : AssignState :=
  let cell := jsTrim c
  if cell = [] then st
  else if ¬ (cfg.markSet.contains (strLower cell)) then st
  else
    let st := { st with totalMarked := st.totalMarked + 1 }
    let absRow := cfg.matR.r0 + i
    let absCol := cfg.matR.c0 + j
    let idxA : Int := idxAOf cfg i j
    let idxB : Int := idxBOf cfg i j
    if idxA < 0 ∨ (cfg.objA.length : Int) ≤ idxA ∨ idxB < 0 ∨ (cfg.objB.length : Int) ≤ idxB then
      { st with skippedOutOfBounds := st.skippedOutOfBounds + 1 }
    else
      let left := jsTrim (cfg.objA.getD idxA.toNat [])
      let right := jsTrim (cfg.objB.getD idxB.toNat [])
      if left = [] then { st with skippedMissingA := st.skippedMissingA + 1 }
      else if right = [] then { st with skippedMissingB := st.skippedMissingB + 1 }
      else
        { st with outRows := st.outRows ++ [⟨left, right, absRow, absCol⟩]
                  emitted := st.emitted + 1 }

/-- Inner loop of the mark scan: the cells of matrix row `i`, `j` counting
from `j0`. -/
def scanCells (cfg : AssignConfig) (i : Nat) : Nat → List Str → AssignState → AssignState
  | _, [], st => st
  | j, c :: rest, st => scanCells cfg i (j + 1) rest (scanCell cfg i j c st)

/-- Outer loop of the mark scan: the matrix rows, `i` counting from
`i0`. -/
def scanRows (cfg : AssignConfig) : Nat → List (List Str) → AssignState → AssignState
  | _, [], st => st
  | i, row :: rest, st => scanRows cfg (i + 1) rest (scanCells cfg i 0 row st)

/-- The static scan configuration assembled by `generateAssignmentsCsv`
(part_001 lines 1196-1222): normalized ranges, orientation flags, trimmed
label vectors and the lower-cased mark set. -/
def assignConfigOf (grid : Grid) (aR0 bR0 mR0 : RangeA1) (markValues : Str) : AssignConfig :=
  let objAR := normalizeRange aR0 grid
  let objBR := normalizeRange bR0 grid
  let matR := normalizeRange mR0 grid
  ⟨(getRangeVector grid objAR).map jsTrim,
   (getRangeVector grid objBR).map jsTrim,
   decide (objAR.c0 = objAR.c1), decide (objBR.r0 = objBR.r1),
   objAR, objBR, matR,
   (((splitChar ',' markValues).map jsTrim).filter (· ≠ [])).map strLower⟩

/-- The trimmed matrix block scanned by `generateAssignmentsCsv`
(part_001 line 1216). -/
def assignMatrixOf (grid : Grid) (mR0 : RangeA1) : List (List Str) :=
  (getRange2D grid (normalizeRange mR0 grid)).map (fun row => row.map jsTrim)

/-- Embedding of the core of `generateAssignmentsCsv` (part_001 lines
1196-1299), after the three ranges have been parsed: normalize them,
check that Object A and Object B reduce to vectors (`none` on the fatal
structural violation), and run the mark scan on the trimmed matrix. -/
def generateAssignments (grid : Grid) (aR0 bR0 mR0 : RangeA1) (markValues : Str) :
    Option AssignState :=
  let objAR := normalizeRange aR0 grid
  let objBR := normalizeRange bR0 grid
  let objAisVertical := objAR.c0 = objAR.c1
  let objAisHorizontal := objAR.r0 = objAR.r1
  let objBisVertical := objBR.c0 = objBR.c1
  let objBisHorizontal := objBR.r0 = objBR.r1
  if ¬ (objAisVertical ∨ objAisHorizontal) ∨ ¬ (objBisVertical ∨ objBisHorizontal) then none
  else some (scanRows (assignConfigOf grid aR0 bR0 mR0 markValues) 0
               (assignMatrixOf grid mR0) initAssignState)

/-- Specification-side description of one matrix cell's contribution to
the emitted assignment pairs, following the amended reading of §4.4: a
trimmed cell matching a mark token (case-insensitively) contributes the
pair of labels found at the mark's absolute row/column re-based against
the start of Object A's (resp. Object B's) own range, provided both
derived indices are in bounds and both labels are non-empty after
trimming. -/
def pairAtSpec (cfg : AssignConfig) (i j : Nat) (c : Str) : Option AssignPair :=
  if jsTrim c ≠ [] ∧ cfg.markSet.contains (strLower (jsTrim c)) = true
      ∧ 0 ≤ idxAOf cfg i j ∧ idxAOf cfg i j < (cfg.objA.length : Int)
      ∧ 0 ≤ idxBOf cfg i j ∧ idxBOf cfg i j < (cfg.objB.length : Int)
      ∧ jsTrim (cfg.objA.getD (idxAOf cfg i j).toNat []) ≠ []
      ∧ jsTrim (cfg.objB.getD (idxBOf cfg i j).toNat []) ≠ []
  then some ⟨jsTrim (cfg.objA.getD (idxAOf cfg i j).toNat []),
             jsTrim (cfg.objB.getD (idxBOf cfg i j).toNat []),
             cfg.matR.r0 + i, cfg.matR.c0 + j⟩
  else none

/-- Specification-side emitted pair list: every matrix cell contributes
through `pairAtSpec`, in row-major order. -/
def assignPairsSpec (cfg : AssignConfig) (matrix : List (List Str)) : List AssignPair :=
  matrix.enum.flatMap (fun p => (p.2.enum).filterMap (fun q => pairAtSpec cfg p.1 q.1 q.2))

/-- Specification-side transcription of the auto-alignment cascade
exactly as §4.5 words it, for a record whose provenance has both
coordinates: (1) a single-cell range answers only on exact provenance
match; (2) provenance inside the range answers that one cell; (3) single
column with the row inside answers the aligned cell; (4) single row with
the column inside answers the aligned cell; (5) a row inside answers the
row slice across the range's columns; (6) a column inside answers the
column slice; (7) otherwise every cell of the range, flattened. -/
def autoAlignSpec (grid : Grid) (row col : Nat) (rng : RangeA1) : List Str :=
  if rng.r0 = rng.r1 ∧ rng.c0 = rng.c1 then
    if row = rng.r0 ∧ col = rng.c0 then [cellAt grid row col] else []
  else if rng.r0 ≤ row ∧ row ≤ rng.r1 ∧ rng.c0 ≤ col ∧ col ≤ rng.c1 then
    [cellAt grid row col]
  else if rng.c0 = rng.c1 ∧ rng.r0 ≤ row ∧ row ≤ rng.r1 then
    [cellAt grid row rng.c0]
  else if rng.r0 = rng.r1 ∧ rng.c0 ≤ col ∧ col ≤ rng.c1 then
    [cellAt grid rng.r0 col]
  else if rng.r0 ≤ row ∧ row ≤ rng.r1 then
    (natRange rng.c0 rng.c1).map (fun c => cellAt grid row c)
  else if rng.c0 ≤ col ∧ col ≤ rng.c1 then
    (natRange rng.r0 rng.r1).map (fun r => cellAt grid r col)
  else (getRange2D grid rng).flatten

/-- Example grid for Records mode: column B rows 2-4 hold `x`, `y`, `z`
(0-indexed rows 1-3, column 1). -/
def exGridRoles : Grid := [[[], []], [[], ['x']], [[], ['y']], [[], ['z']]]

/-- Example grid for Assignments mode (§8): Object A labels in `A1:A2`,
Object B labels in `B1:D1`, matrix `B2:D3` with `X` marks at
matrix-relative `(0,1)` and `(1,2)`. -/
def exGridAssign : Grid :=
  [[['R', '1'], ['E', '1'], ['E', '2'], ['E', '3']],
   [['R', '2'], [], ['X'], []],
   [[], [], [], ['X']]]

/-- Example rows for the deduplicator (§8): two identical records and a
distinct one. -/
def exDupRows : List RecordMap :=
  [[(['a'], ['1']), (['b'], ['2'])],
   [(['a'], ['1']), (['b'], ['2'])],
   [(['a'], ['3']), (['b'], ['4'])]]

/-- Headers for the deduplicator example. -/
def exDupHeaders : List Str := [['a'], ['b']]

/-- Left CSV of the diff counterexample: header `a`, rows `x`, `y`. -/
def cxCompareLeft : Str := ['a', '\n', 'x', '\n', 'y']

/-- Right CSV of the diff counterexample: header `b`, row `x` (no header
in common with the left CSV). -/
def cxCompareRight : Str := ['b', '\n', 'x']

/-! Lemmas about `trimLeft` / `jsTrim`. -/

lemma trimLeft_suffix (s : Str) : trimLeft s <:+ s := by
  induction s with
  | nil => exact List.suffix_rfl
  | cons c rest ih =>
    simp only [trimLeft]
    split
    · exact ih.trans (List.suffix_cons c rest)
    · exact List.suffix_rfl

lemma trimLeft_head : ∀ {s c t}, trimLeft s = c :: t → isWs c = false := by
  intro s
  induction s with
  | nil => intro c t h; simp [trimLeft] at h
  | cons a rest ih =>
    intro c t h
    simp only [trimLeft] at h
    by_cases ha : isWs a
    · rw [if_pos ha] at h; exact ih h
    · rw [if_neg ha] at h
      cases h
      simpa using ha

lemma trimLeft_head? {s : Str} {c : Char} (h : (trimLeft s).head? = some c) :
    isWs c = false := by
  have := List.eq_cons_of_mem_head? h
  exact trimLeft_head this

lemma trimLeft_eq_self {s : Str} (h : ∀ c, s.head? = some c → isWs c = false) :
    trimLeft s = s := by
  cases s with
  | nil => rfl
  | cons c rest => simp [trimLeft, h c rfl]

lemma jsTrim_nil : jsTrim [] = [] := rfl

lemma jsTrim_last? {s : Str} {c : Char} (h : (jsTrim s).reverse.head? = some c) :
    isWs c = false := by
  rw [jsTrim, List.reverse_reverse] at h
  exact trimLeft_head? h

lemma jsTrim_head? {s : Str} {c : Char} (h : (jsTrim s).head? = some c) :
    isWs c = false := by
  rw [jsTrim, List.head?_reverse] at h
  set u := trimLeft s with hu
  set v := trimLeft u.reverse with hv
  obtain ⟨p, hp⟩ := trimLeft_suffix u.reverse
  have hvne : v ≠ [] := by
    intro hnil
    rw [hnil] at h
    simp at h
  have : v.getLast? = u.reverse.getLast? := by
    rw [← hp, ← hv]
    exact (List.getLast?_append_of_ne_nil p hvne).symm
  rw [this, List.getLast?_reverse] at h
  exact trimLeft_head? h

lemma jsTrim_eq_self {s : Str} (h1 : ∀ c, s.head? = some c → isWs c = false)
    (h2 : ∀ c, s.reverse.head? = some c → isWs c = false) : jsTrim s = s := by
  rw [jsTrim, trimLeft_eq_self h1, trimLeft_eq_self h2, List.reverse_reverse]

lemma jsTrim_idem (s : Str) : jsTrim (jsTrim s) = jsTrim s :=
  jsTrim_eq_self (fun _ h => jsTrim_head? h) (fun _ h => jsTrim_last? h)

/-! Lemmas about `joinList`. -/

lemma joinList_cons_cons (sep x y : Str) (xs : List Str) :
    joinList sep (x :: y :: xs) = x ++ sep ++ joinList sep (y :: xs) := rfl

lemma joinList_head? (sep : Str) {p : Str} (rest : List Str) (hp : p ≠ []) :
    (joinList sep (p :: rest)).head? = p.head? := by
  cases rest with
  | nil => rfl
  | cons y ys =>
    rw [joinList_cons_cons, List.append_assoc]
    exact List.head?_append_of_ne_nil p hp

lemma mem_of_getLast?_eq {α : Type} {l : List α} {x : α} (h : l.getLast? = some x) :
    x ∈ l := by
  obtain ⟨hn, rfl⟩ := List.mem_getLast?_eq_getLast h
  exact List.getLast_mem hn

lemma joinList_getLast? (sep : Str) :
    ∀ (parts : List Str) (x : Str), x ≠ [] → parts.getLast? = some x →
      (joinList sep parts).getLast? = x.getLast? := by
  intro parts
  induction parts with
  | nil => intro x _ h; simp at h
  | cons y ys ih =>
    intro x hx h
    cases ys with
    | nil =>
      simp only [List.getLast?_singleton, Option.some_inj] at h
      subst h
      rfl
    | cons z zs =>
      rw [List.getLast?_cons_cons] at h
      have hj := ih x hx h
      have hne : joinList sep (z :: zs) ≠ [] := by
        intro hnil
        rw [hnil] at hj
        obtain ⟨c, hc⟩ : ∃ c, x.getLast? = some c := by
          cases hcase : x.getLast? with
          | none => exact absurd (List.getLast?_eq_none_iff.mp hcase) hx
          | some c => exact ⟨c, rfl⟩
        rw [hc] at hj
        simp at hj
      rw [joinList_cons_cons, List.getLast?_append_of_ne_nil _ hne, hj]

/-! Lemmas about `natRange` and association lists. -/

lemma mem_natRange {lo hi r : Nat} : r ∈ natRange lo hi ↔ lo ≤ r ∧ r ≤ hi := by
  simp only [natRange, List.mem_map, List.mem_range]
  constructor
  · rintro ⟨k, hk, rfl⟩; omega
  · intro h; exact ⟨r - lo, by omega, by omega⟩

lemma alistLookup_map_keys {κ α : Type} [DecidableEq κ] (key : Nat → κ) (val : Nat → α)
    (hinj : ∀ a b, key a = key b → a = b) :
    ∀ (l : List Nat) (r : Nat), r ∈ l →
      alistLookup (l.map (fun x => (key x, val x))) (key r) = some (val r) := by
  intro l
  induction l with
  | nil => intro r hr; simp at hr
  | cons x xs ih =>
    intro r hr
    rw [List.mem_cons] at hr
    by_cases hx : key x = key r
    · have : x = r := hinj _ _ hx
      subst this
      simp [alistLookup, List.find?_cons_of_pos, hx]
    · have hr' : r ∈ xs := by
        rcases hr with h | h
        · exact absurd (by rw [h]) hx
        · exact h
      have := ih r hr'
      simpa [alistLookup, List.find?_cons_of_neg, hx] using this

lemma normalizeRange_sorted (rng : RangeA1) (grid : Grid) :
    (normalizeRange rng grid).r0 ≤ (normalizeRange rng grid).r1 ∧
      (normalizeRange rng grid).c0 ≤ (normalizeRange rng grid).c1 := by
  simp only [normalizeRange, clamp]
  omega

/-- C6: for every filter condition and record, if zero left-hand values
resolve, the condition passes exactly when its operator is a negated one
(not-equals or not-contains); every non-negated operator fails. -/
theorem empty_left_values_rule (cmp : Str → Str → Option Int) (record : Rec)
    (f : FilterCondition) (grid : Grid) (h : leftValuesFor record f grid = []) :
    passesFilter cmp record f grid = true ↔ (f.op = .neq ∨ f.op = .notLike) := by
  rw [passesFilter, h]
  simp [isNegOp]

/-- C6 witness: a sheet-sourced `notLike` condition over the single-cell
range `A1` resolves zero left values for a record whose provenance is
`(5, 5)`, and passes. -/
theorem empty_left_values_rule_witness :
    leftValuesFor ⟨[], some 5, some 5⟩
        ⟨.sheet, [], ['A', '1'], .notLike, ['t']⟩ [] = [] ∧
      (passesFilter (fun _ _ => none) ⟨[], some 5, some 5⟩
          ⟨.sheet, [], ['A', '1'], .notLike, ['t']⟩ [] = true ↔
        (FilterOp.notLike = FilterOp.neq ∨ FilterOp.notLike = FilterOp.notLike)) :=
  ⟨by decide,
   empty_left_values_rule (fun _ _ => none) ⟨[], some 5, some 5⟩
     ⟨.sheet, [], ['A', '1'], .notLike, ['t']⟩ [] (by decide)⟩

/-- C9: an output-sourced condition always resolves exactly one left-hand
value (the record's field value, empty when absent), so zero resolved
values implies the condition is sheet-sourced. -/
theorem output_left_values_singleton (record : Rec) (f : FilterCondition) (grid : Grid) :
    (f.source = .output → leftValuesFor record f grid = [lookupField record.fields f.field]) ∧
      (leftValuesFor record f grid = [] → f.source = .sheet) := by
  constructor
  · intro h
    rw [leftValuesFor, h]
  · intro h
    cases hs : f.source with
    | output => rw [leftValuesFor, hs] at h; simp at h
    | sheet => rfl

/-- C9 witness: a concrete output-sourced condition resolves exactly the
singleton holding the record's field value. -/
theorem output_left_values_singleton_witness :
    leftValuesFor ⟨[(['N'], ['v'])], none, none⟩
        ⟨.output, ['N'], [], .eq, ['v']⟩ [] =
      [lookupField [(['N'], ['v'])] ['N']] :=
  (output_left_values_singleton ⟨[(['N'], ['v'])], none, none⟩
    ⟨.output, ['N'], [], .eq, ['v']⟩ []).1 rfl

/-- C3: for every normalized range, a single-column range produces a
row-keyed map with one entry per row holding that row's (trimmed) cell
value; a single-row (not single-column) range produces a column-keyed
map; any other 2-D block produces a row-keyed map whose entries join the
row's non-empty trimmed cells with a single space, and carries the block
warning. -/
theorem records_mode_orientation (grid : Grid) (rng : RangeA1) :
    ((normalizeRange rng grid).c0 = (normalizeRange rng grid).c1 →
      (getRolesMap grid rng).keyKind = true ∧ (getRolesMap grid rng).warning = none ∧
      (getRolesMap grid rng).map.map Prod.fst =
        (natRange (normalizeRange rng grid).r0 (normalizeRange rng grid).r1).map RoleKey.row ∧
      ∀ r, (normalizeRange rng grid).r0 ≤ r → r ≤ (normalizeRange rng grid).r1 →
        alistLookup (getRolesMap grid rng).map (RoleKey.row r) =
          some (jsTrim (cellAt grid r (normalizeRange rng grid).c0))) ∧
    ((normalizeRange rng grid).c0 ≠ (normalizeRange rng grid).c1 →
      (normalizeRange rng grid).r0 = (normalizeRange rng grid).r1 →
      (getRolesMap grid rng).keyKind = false ∧ (getRolesMap grid rng).warning = none ∧
      (getRolesMap grid rng).map.map Prod.fst =
        (natRange (normalizeRange rng grid).c0 (normalizeRange rng grid).c1).map RoleKey.col ∧
      ∀ c, (normalizeRange rng grid).c0 ≤ c → c ≤ (normalizeRange rng grid).c1 →
        alistLookup (getRolesMap grid rng).map (RoleKey.col c) =
          some (jsTrim (cellAt grid (normalizeRange rng grid).r0 c))) ∧
    ((normalizeRange rng grid).c0 ≠ (normalizeRange rng grid).c1 →
      (normalizeRange rng grid).r0 ≠ (normalizeRange rng grid).r1 →
      (getRolesMap grid rng).keyKind = true ∧
      (getRolesMap grid rng).warning = some blockWarning ∧
      (getRolesMap grid rng).map.map Prod.fst =
        (natRange (normalizeRange rng grid).r0 (normalizeRange rng grid).r1).map RoleKey.row ∧
      ∀ r, (normalizeRange rng grid).r0 ≤ r → r ≤ (normalizeRange rng grid).r1 →
        alistLookup (getRolesMap grid rng).map (RoleKey.row r) =
          some (joinList [' ']
            (((natRange (normalizeRange rng grid).c0 (normalizeRange rng grid).c1).map
                (fun c => jsTrim (cellAt grid r c))).filter (· ≠ [])))) := by
  obtain ⟨hr01, hc01⟩ := normalizeRange_sorted rng grid
  refine ⟨?_, ?_, ?_⟩
  · intro hc
    have hw : (normalizeRange rng grid).c1 - (normalizeRange rng grid).c0 + 1 = 1 := by omega
    have hg : getRolesMap grid rng =
        { map := (natRange (normalizeRange rng grid).r0 (normalizeRange rng grid).r1).map
            (fun r => (RoleKey.row r, jsTrim (cellAt grid r (normalizeRange rng grid).c0)))
          keyKind := true, warning := none } := by
      rw [getRolesMap]
      simp only [hw, if_pos]
    refine ⟨by rw [hg], by rw [hg], by rw [hg]; simp [List.map_map], ?_⟩
    intro r h1 h2
    rw [hg]
    exact alistLookup_map_keys RoleKey.row _ (fun a b h => by injection h) _ r
      (mem_natRange.mpr ⟨h1, h2⟩)
  · intro hc hr
    have hw : ¬ ((normalizeRange rng grid).c1 - (normalizeRange rng grid).c0 + 1 = 1) := by omega
    have hh : (normalizeRange rng grid).r1 - (normalizeRange rng grid).r0 + 1 = 1 := by omega
    have hg : getRolesMap grid rng =
        { map := (natRange (normalizeRange rng grid).c0 (normalizeRange rng grid).c1).map
            (fun c => (RoleKey.col c, jsTrim (cellAt grid (normalizeRange rng grid).r0 c)))
          keyKind := false, warning := none } := by
      rw [getRolesMap]
      simp only [hw, hh, if_neg, if_pos, ite_false, ite_true]
    refine ⟨by rw [hg], by rw [hg], by rw [hg]; simp [List.map_map], ?_⟩
    intro c h1 h2
    rw [hg]
    exact alistLookup_map_keys RoleKey.col _ (fun a b h => by injection h) _ c
      (mem_natRange.mpr ⟨h1, h2⟩)
  · intro hc hr
    have hw : ¬ ((normalizeRange rng grid).c1 - (normalizeRange rng grid).c0 + 1 = 1) := by omega
    have hh : ¬ ((normalizeRange rng grid).r1 - (normalizeRange rng grid).r0 + 1 = 1) := by omega
    have hg : getRolesMap grid rng =
        { map := (natRange (normalizeRange rng grid).r0 (normalizeRange rng grid).r1).map
            (fun r => (RoleKey.row r,
              joinList [' ']
                (((natRange (normalizeRange rng grid).c0 (normalizeRange rng grid).c1).map
                    (fun c => jsTrim (cellAt grid r c))).filter (· ≠ []))))
          keyKind := true, warning := some blockWarning } := by
      rw [getRolesMap]
      simp only [hw, hh, if_neg, ite_false]
    refine ⟨by rw [hg], by rw [hg], by rw [hg]; simp [List.map_map], ?_⟩
    intro r h1 h2
    rw [hg]
    exact alistLookup_map_keys RoleKey.row _ (fun a b h => by injection h) _ r
      (mem_natRange.mpr ⟨h1, h2⟩)

/-- C3 witness: the single-column range `B2:B4` over the example grid
(values `x`, `y`, `z`) yields exactly 3 row-keyed records for rows 1, 2,
3 carrying those values. -/
theorem records_mode_orientation_witness :
    (normalizeRange ⟨1, 1, 3, 1⟩ exGridRoles).c0 = (normalizeRange ⟨1, 1, 3, 1⟩ exGridRoles).c1 ∧
      (getRolesMap exGridRoles ⟨1, 1, 3, 1⟩).map.length = 3 ∧
      alistLookup (getRolesMap exGridRoles ⟨1, 1, 3, 1⟩).map (RoleKey.row 1) = some ['x'] ∧
      alistLookup (getRolesMap exGridRoles ⟨1, 1, 3, 1⟩).map (RoleKey.row 2) = some ['y'] ∧
      alistLookup (getRolesMap exGridRoles ⟨1, 1, 3, 1⟩).map (RoleKey.row 3) = some ['z'] := by
  have h := (records_mode_orientation exGridRoles ⟨1, 1, 3, 1⟩).1 (by decide)
  refine ⟨by decide, by decide, ?_, ?_, ?_⟩
  · have := h.2.2.2 1 (by decide) (by decide)
    simpa using this
  · have := h.2.2.2 2 (by decide) (by decide)
    simpa using this
  · have := h.2.2.2 3 (by decide) (by decide)
    simpa using this

lemma jsTrim_joined_parts {parts : List Str}
    (h : ∀ p ∈ parts, p ≠ [] ∧ ∃ q, p = jsTrim q) :
    jsTrim (joinList [' '] parts) = joinList [' '] parts := by
  cases hp : parts with
  | nil => rfl
  | cons p0 ps =>
    obtain ⟨hp0ne, q0, hq0⟩ := h p0 (hp ▸ List.mem_cons_self p0 ps)
    obtain ⟨pl, hpl⟩ : ∃ pl, parts.getLast? = some pl := by
      cases hcase : parts.getLast? with
      | none => rw [List.getLast?_eq_none_iff] at hcase; rw [hcase] at hp; cases hp
      | some pl => exact ⟨pl, rfl⟩
    obtain ⟨hplne, ql, hql⟩ := h pl (mem_of_getLast?_eq hpl)
    apply jsTrim_eq_self
    · intro c hc
      rw [joinList_head? [' '] ps hp0ne] at hc
      rw [hq0] at hc
      exact jsTrim_head? hc
    · intro c hc
      rw [List.head?_reverse] at hc
      rw [joinList_getLast? [' '] (p0 :: ps) pl hplne (hp ▸ hpl)] at hc
      rw [hql, ← List.head?_reverse] at hc
      exact jsTrim_last? hc

/-- C10: every value stored in a Records-mode range map is already
whitespace-trimmed (single-column, single-row and block-join cases
alike): trimming it again changes nothing. -/
theorem roles_values_trimmed (grid : Grid) (rng : RangeA1) {k : RoleKey} {v : Str}
    (h : (k, v) ∈ (getRolesMap grid rng).map) : jsTrim v = v := by
  simp only [getRolesMap] at h
  split at h
  · rw [List.mem_map] at h
    obtain ⟨r, _, heq⟩ := h
    have hv : v = jsTrim (cellAt grid r (normalizeRange rng grid).c0) := congrArg Prod.snd heq.symm
    rw [hv]
    exact jsTrim_idem _
  · split at h
    · rw [List.mem_map] at h
      obtain ⟨c, _, heq⟩ := h
      have hv : v = jsTrim (cellAt grid (normalizeRange rng grid).r0 c) := congrArg Prod.snd heq.symm
      rw [hv]
      exact jsTrim_idem _
    · rw [List.mem_map] at h
      obtain ⟨r, _, heq⟩ := h
      have hv : v = joinList [' ']
          (((natRange (normalizeRange rng grid).c0 (normalizeRange rng grid).c1).map
              (fun c => jsTrim (cellAt grid r c))).filter (· ≠ [])) := congrArg Prod.snd heq.symm
      rw [hv]
      apply jsTrim_joined_parts
      intro p hpmem
      rw [List.mem_filter] at hpmem
      obtain ⟨hpmap, hpne⟩ := hpmem
      rw [List.mem_map] at hpmap
      obtain ⟨c, _, hpc⟩ := hpmap
      exact ⟨by simpa using hpne, cellAt grid r c, by rw [← hpc]⟩

/-- C10 witness: a concrete stored value of the example Records map is
trim-invariant. -/
theorem roles_values_trimmed_witness :
    (RoleKey.row 1, ['x']) ∈ (getRolesMap exGridRoles ⟨1, 1, 3, 1⟩).map ∧
      jsTrim ['x'] = ['x'] :=
  ⟨by decide, @roles_values_trimmed exGridRoles ⟨1, 1, 3, 1⟩ (RoleKey.row 1) ['x'] (by decide)⟩

lemma alistLookup_nil {κ α : Type} [DecidableEq κ] (k : κ) :
    alistLookup ([] : List (κ × α)) k = none := rfl

lemma find?_map_overwrite {κ α : Type} [DecidableEq κ] {k : κ} {v : α} :
    ∀ (m : List (κ × α)) (k' : κ),
      List.find? (fun p => p.1 = k') (m.map (fun p => if p.1 = k then (k, v) else p)) =
        if k' = k then (if m.any (fun p => p.1 = k) then some (k, v) else none)
        else List.find? (fun p => p.1 = k') m := by
  intro m
  induction m with
  | nil => intro k'; by_cases h : k' = k <;> simp [h]
  | cons p rest ih =>
    intro k'
    have hsymm : ∀ a b : κ, ¬ a = b → (decide (b = a)) = false := by
      intro a b h
      simp only [decide_eq_false_iff_not]
      exact fun hh => h hh.symm
    by_cases hp : p.1 = k
    · by_cases hk : k' = k
      · subst hk
        simp [List.find?_cons, hp, List.any_cons]
      · have h1 : (decide (k = k')) = false := hsymm _ _ hk
        have h2 : (decide (p.1 = k')) = false := by rw [hp]; exact h1
        simp [List.map_cons, if_pos hp, List.find?_cons, h1, h2, ih k', hk]
    · by_cases hpk : p.1 = k'
      · by_cases hk : k' = k
        · exact absurd (hk ▸ hpk) hp
        · have h1 : (decide (p.1 = k')) = true := by simp [hpk]
          simp [List.map_cons, if_neg hp, List.find?_cons, h1, hk]
      · have h1 : (decide (p.1 = k')) = false := by simp [hpk]
        by_cases hk : k' = k
        · subst hk
          have hp' : (decide (p.1 = k')) = false := by simp [hp]
          simp [List.map_cons, if_neg hp, List.find?_cons, hp', ih k', List.any_cons,
            -List.find?_map]
          rw [hp', Bool.false_or]
        · simp [List.map_cons, if_neg hp, List.find?_cons, h1, ih k', hk, -List.find?_map]

lemma find?_eq_none_of_not_any {κ α : Type} [DecidableEq κ] {k : κ} {m : List (κ × α)}
    (h : ¬ (m.any (fun p => p.1 = k)) = true) :
    List.find? (fun p => p.1 = k) m = none := by
  rw [List.find?_eq_none]
  intro p hmem
  simp only [List.any_eq_true, not_exists, not_and] at h
  intro hcontra
  exact h p hmem hcontra

lemma alistLookup_alistSet {κ α : Type} [DecidableEq κ] (m : List (κ × α)) (k : κ) (v : α)
    (k' : κ) :
    alistLookup (alistSet m k v) k' = if k' = k then some v else alistLookup m k' := by
  rw [alistSet]
  by_cases hmem : m.any (fun p => p.1 = k)
  · rw [if_pos hmem, alistLookup, find?_map_overwrite, hmem]
    by_cases hk : k' = k
    · simp [hk]
    · simp [hk, alistLookup]
  · rw [if_neg hmem, alistLookup, List.find?_append]
    by_cases hk : k' = k
    · subst hk
      rw [find?_eq_none_of_not_any hmem]
      simp [List.find?]
    · have hk2 : ¬ ((k = k' : Bool) = true) := by
        simp
        exact fun h => hk h.symm
      rw [if_neg hk, alistLookup]
      cases hfind : List.find? (fun p => p.1 = k') m with
      | none => simp [List.find?_cons, hk2, List.find?]
      | some q => simp

lemma cnt_alistSet (m : List (Str × Nat)) (k : Str) (v : Nat) (k' : Str) :
    cnt (alistSet m k v) k' = if k' = k then v else cnt m k' := by
  rw [cnt, alistLookup_alistSet]
  by_cases hk : k' = k
  · simp [hk]
  · simp [hk, cnt]

lemma cnt_bumpCounts (keyOf : RecordMap → Str) :
    ∀ (rows : List RecordMap) (m : List (Str × Nat)) (k : Str),
      cnt (bumpCounts keyOf rows m) k =
        cnt m k + rows.countP (fun r => keyOf r = k) := by
  intro rows
  induction rows with
  | nil => intro m k; simp [bumpCounts, List.countP_nil]
  | cons r rest ih =>
    intro m k
    rw [bumpCounts, ih, cnt_alistSet, List.countP_cons]
    by_cases hk : k = keyOf r
    · subst hk
      simp [cnt]
      omega
    · have : ¬ (keyOf r = k) := fun h => hk h.symm
      simp [hk, this]

/-- C7: `findDuplicates` keys each row by the trimmed values of all
headers joined with `␟` and returns, with full multiplicity, every row
whose key occurs more than once; on the §8 example it reports exactly 1
duplicate group and 2 duplicate rows. -/
theorem find_duplicates_all_occurrences :
    (∀ (rows : List RecordMap) (headers : List Str) (r : RecordMap),
      (findDuplicates rows headers).2.2.count r =
        if 1 < rows.countP (fun q => rowKeyOf headers q = rowKeyOf headers r) then rows.count r
        else 0) ∧
    (findDuplicates exDupRows exDupHeaders).1 = 1 ∧
      (findDuplicates exDupRows exDupHeaders).2.1 = 2 := by
  refine ⟨?_, by decide, by decide⟩
  intro rows headers r
  rw [findDuplicates]
  simp only
  have hcnt : ∀ q : RecordMap, cnt (bumpCounts (rowKeyOf headers) rows []) (rowKeyOf headers q) =
      rows.countP (fun p => rowKeyOf headers p = rowKeyOf headers q) := by
    intro q
    rw [cnt_bumpCounts]
    simp [cnt, alistLookup_nil]
  by_cases hdup : 1 < rows.countP (fun q => rowKeyOf headers q = rowKeyOf headers r)
  · rw [if_pos hdup]
    apply List.count_filter
    simp only [decide_eq_true_eq]
    rw [hcnt r]
    exact hdup
  · rw [if_neg hdup]
    rw [List.count_eq_zero]
    intro hmem
    rw [List.mem_filter] at hmem
    apply hdup
    have := hmem.2
    simp only [decide_eq_true_eq] at this
    rw [hcnt r] at this
    exact this

lemma makeUniqueHeadersAux_closed :
    ∀ (rest : List Str) (seen : List (Str × Nat)) (processed : List Str),
      (∀ b, (alistLookup seen b).getD 0 = processed.countP (fun h => baseOf h = b)) →
      makeUniqueHeadersAux seen rest =
        (List.range rest.length).map (fun i =>
          let base := baseOf (rest.getD i [])
          let k := processed.countP (fun h => baseOf h = base) +
            (rest.take i).countP (fun h => baseOf h = base)
          if k = 0 then base else base ++ '_' :: natToStr (k + 1)) := by
  intro rest
  induction rest with
  | nil => intro seen processed _; simp [makeUniqueHeadersAux]
  | cons h t ih =>
    intro seen processed hinv
    rw [makeUniqueHeadersAux]
    have hbase : (if jsTrim h = [] then columnWord else jsTrim h) = baseOf h := rfl
    have hn : (alistLookup seen (baseOf h)).getD 0 =
        processed.countP (fun x => baseOf x = baseOf h) := hinv (baseOf h)
    have hinv' : ∀ b, (alistLookup (alistSet seen (baseOf h)
          ((alistLookup seen (baseOf h)).getD 0 + 1)) b).getD 0 =
        (processed ++ [h]).countP (fun x => baseOf x = b) := by
      intro b
      rw [alistLookup_alistSet, List.countP_append]
      by_cases hb : b = baseOf h
      · subst hb
        simp [hn, List.countP_cons]
      · have hne : ¬ (baseOf h = b) := fun hc => hb hc.symm
        rw [if_neg hb]
        rw [hinv b]
        simp [List.countP_cons, hne]
    have htail := ih (alistSet seen (baseOf h) ((alistLookup seen (baseOf h)).getD 0 + 1))
      (processed ++ [h]) hinv'
    rw [hbase, htail]
    rw [List.length_cons, List.range_succ_eq_map, List.map_cons, List.map_map]
    congr 1
    · simp only [List.getD_cons_zero, List.take_zero, List.countP_nil, Nat.add_zero]
      rw [hn]
      by_cases hz : processed.countP (fun x => baseOf x = baseOf h) = 0
      · rw [hz]; simp
      · rw [if_neg hz]
        have : ¬ (processed.countP (fun x => baseOf x = baseOf h) + 1 = 1) := by omega
        rw [if_neg this]
    · apply List.map_congr_left
      intro i _
      simp only [Function.comp, List.getD_cons_succ, List.take_succ_cons, List.countP_cons,
        List.countP_append, List.countP_nil]
      by_cases hph : baseOf h = baseOf (t.getD i [])
      · simp only [hph, decide_eq_true_eq, if_pos]
        exact congrArg
          (fun n => if n = 0 then baseOf (t.getD i [])
                    else baseOf (t.getD i []) ++ '_' :: natToStr (n + 1)) (by omega)
      · have hd : (decide (baseOf h = baseOf (t.getD i []))) = false := decide_eq_false hph
        simp only [hd, Bool.false_eq_true, if_false]
        exact congrArg
          (fun n => if n = 0 then baseOf (t.getD i [])
                    else baseOf (t.getD i []) ++ '_' :: natToStr (n + 1)) (by omega)

/-- C8 counterexample: `makeUniqueHeaders` does not always produce a
duplicate-free list — an input name that textually collides with a
generated suffixed name survives as a duplicate. -/
theorem unique_headers_counterexample :
    makeUniqueHeaders [['a'], ['a', '_', '2'], ['a']] =
        [['a'], ['a', '_', '2'], ['a', '_', '2']] ∧
      ¬ (makeUniqueHeaders [['a'], ['a', '_', '2'], ['a']]).Nodup := by
  constructor
  · rfl
  · decide

/-- C8 (amended): `makeUniqueHeaders` keeps the first occurrence of each
trimmed base name (blank trims become `Column`) unchanged and suffixes
the k-th occurrence of the same base with `_k`, in first-seen order; the
output is not guaranteed duplicate-free when an input name collides with
a generated suffixed name. -/
theorem unique_headers_characterisation (headers : List Str) :
    makeUniqueHeaders headers =
      (List.range headers.length).map (fun i =>
        let base := baseOf (headers.getD i [])
        let k := (headers.take i).countP (fun h => baseOf h = base)
        if k = 0 then base else base ++ '_' :: natToStr (k + 1)) := by
  rw [makeUniqueHeaders, makeUniqueHeadersAux_closed headers [] []
    (fun b => by simp [alistLookup_nil])]
  simp

/-- C4: for a record with full provenance `(row, col)` and a parsed sheet
range, `sheetValuesAuto` implements exactly the §4.5 specificity cascade
transcribed by `autoAlignSpec`. -/
theorem auto_alignment_cascade (grid : Grid) (row col : Nat) (flds : RecordMap)
    (f : FilterCondition) (p : RangeA1)
    (h : parseA1Range (jsTrim f.sheetRangeA1) = some p) :
    sheetValuesAuto ⟨flds, some row, some col⟩ f grid =
      autoAlignSpec grid row col (normalizeRange p grid) := by
  simp only [sheetValuesAuto, h, autoAlignSpec]
  split_ifs <;> first | rfl | omega

/-- C4 witness: the cascade equality at the range `B2:D3` of the example
grid for a record whose provenance is the mark cell `(1, 2)`. -/
theorem auto_alignment_cascade_witness :
    parseA1Range (jsTrim ['B', '2', ':', 'D', '3']) = some ⟨1, 1, 2, 3⟩ ∧
      sheetValuesAuto ⟨[], some 1, some 2⟩
          ⟨.sheet, [], ['B', '2', ':', 'D', '3'], .eq, []⟩ exGridAssign =
        autoAlignSpec exGridAssign 1 2 (normalizeRange ⟨1, 1, 2, 3⟩ exGridAssign) :=
  ⟨by decide,
   auto_alignment_cascade exGridAssign 1 2 []
     ⟨.sheet, [], ['B', '2', ':', 'D', '3'], .eq, []⟩ ⟨1, 1, 2, 3⟩ (by decide)⟩

lemma scanCell_outRows (cfg : AssignConfig) (i j : Nat) (c : Str) (st : AssignState) :
    (scanCell cfg i j c st).outRows = st.outRows ++ (pairAtSpec cfg i j c).toList := by
  simp only [scanCell, pairAtSpec]
  by_cases h1 : jsTrim c = []
  · rw [if_pos h1, if_neg (by tauto)]
    simp
  rw [if_neg h1]
  by_cases h2 : cfg.markSet.contains (strLower (jsTrim c)) = true
  case neg =>
    rw [if_pos (by simpa using h2), if_neg (by tauto)]
    simp
  case pos =>
    rw [if_neg (by simpa using h2)]
    by_cases h3 : idxAOf cfg i j < 0 ∨ (cfg.objA.length : Int) ≤ idxAOf cfg i j ∨
        idxBOf cfg i j < 0 ∨ (cfg.objB.length : Int) ≤ idxBOf cfg i j
    · rw [if_pos h3, if_neg (fun hc => by obtain ⟨_, _, a1, a2, a3, a4, _, _⟩ := hc; omega)]
      simp
    rw [if_neg h3]
    by_cases h4 : jsTrim (cfg.objA.getD (idxAOf cfg i j).toNat []) = []
    · rw [if_pos h4, if_neg (fun hc => hc.2.2.2.2.2.2.1 h4)]
      simp
    rw [if_neg h4]
    by_cases h5 : jsTrim (cfg.objB.getD (idxBOf cfg i j).toNat []) = []
    · rw [if_pos h5, if_neg (fun hc => hc.2.2.2.2.2.2.2 h5)]
      simp
    rw [if_neg h5, if_pos ⟨h1, h2, by omega, by omega, by omega, by omega, h4, h5⟩]
    simp

lemma scanCells_outRows (cfg : AssignConfig) (i : Nat) :
    ∀ (cells : List Str) (j : Nat) (st : AssignState),
      (scanCells cfg i j cells st).outRows =
        st.outRows ++ (List.enumFrom j cells).filterMap (fun q => pairAtSpec cfg i q.1 q.2) := by
  intro cells
  induction cells with
  | nil => intro j st; simp [scanCells]
  | cons c rest ih =>
    intro j st
    rw [scanCells, ih, scanCell_outRows]
    cases hp : pairAtSpec cfg i j c with
    | none => simp [List.enumFrom_cons, List.filterMap_cons, hp]
    | some p => simp [List.enumFrom_cons, List.filterMap_cons, hp]

lemma scanRows_outRows (cfg : AssignConfig) :
    ∀ (rows : List (List Str)) (i : Nat) (st : AssignState),
      (scanRows cfg i rows st).outRows =
        st.outRows ++ (List.enumFrom i rows).flatMap
          (fun p => (p.2.enum).filterMap (fun q => pairAtSpec cfg p.1 q.1 q.2)) := by
  intro rows
  induction rows with
  | nil => intro i st; simp [scanRows]
  | cons row rest ih =>
    intro i st
    rw [scanRows, ih, scanCells_outRows]
    simp [List.enumFrom_cons, List.enum, List.append_assoc]

/-- C1 counterexample: on the §8 example (Object A `A1:A2`, Object B
`B1:D1`, matrix `B2:D3`, marks `{X}` at matrix-relative `(0,1)` and
`(1,2)`) the code emits exactly one pair, `(R2, E2)` — not the two pairs
`(R1, E2)` and `(R2, E3)` the claim asserts — because the A-axis index is
derived from Object A's own range start, not from the matrix's top. -/
theorem assignments_example_counterexample :
    (generateAssignments exGridAssign ⟨0, 0, 1, 0⟩ ⟨0, 1, 0, 3⟩ ⟨1, 1, 2, 3⟩ ['X']).map
        (fun st => st.outRows.map (fun p => (p.left, p.right))) =
      some [(['R', '2'], ['E', '2'])] ∧
    ¬ ((generateAssignments exGridAssign ⟨0, 0, 1, 0⟩ ⟨0, 1, 0, 3⟩ ⟨1, 1, 2, 3⟩ ['X']).map
        (fun st => st.outRows.map (fun p => (p.left, p.right))) =
      some [(['R', '1'], ['E', '2']), (['R', '2'], ['E', '3'])]) := by
  constructor
  · decide
  · decide

/-- C1 (amended): whenever the assignments generation succeeds, the
emitted pair list is exactly the row-major list of matrix cells whose
trimmed value case-insensitively matches a mark token, each contributing
the labels at the derived indices `idxAOf` / `idxBOf` — the mark's
absolute row (resp. column) minus the start of the object's own range —
when those indices are in bounds and both labels are non-empty. -/
theorem assignments_index_derivation (grid : Grid) (aR0 bR0 mR0 : RangeA1)
    (markValues : Str) (st : AssignState)
    (h : generateAssignments grid aR0 bR0 mR0 markValues = some st) :
    st.outRows = assignPairsSpec (assignConfigOf grid aR0 bR0 mR0 markValues)
      (assignMatrixOf grid mR0) := by
  rw [generateAssignments] at h
  split at h
  · exact absurd h (by simp)
  · have hst := Option.some.inj h
    rw [← hst, scanRows_outRows]
    rw [assignPairsSpec, List.enum]
    rfl

/-- C1 witness: the amended characterisation applied at the §8 example
input. -/
theorem assignments_index_derivation_witness :
    AssignState.outRows ⟨[⟨['R', '2'], ['E', '2'], 1, 2⟩], 2, 1, 1, 0, 0⟩ =
      assignPairsSpec (assignConfigOf exGridAssign ⟨0, 0, 1, 0⟩ ⟨0, 1, 0, 3⟩ ⟨1, 1, 2, 3⟩ ['X'])
        (assignMatrixOf exGridAssign ⟨1, 1, 2, 3⟩) :=
  assignments_index_derivation exGridAssign ⟨0, 0, 1, 0⟩ ⟨0, 1, 0, 3⟩ ⟨1, 1, 2, 3⟩ ['X']
    ⟨[⟨['R', '2'], ['E', '2'], 1, 2⟩], 2, 1, 1, 0, 0⟩ (by decide)

lemma emitPass_count (keyOf : RecordMap → Str) :
    ∀ (rows : List RecordMap) (mine other : List (Str × Nat)) (k : Str),
      cnt mine k - cnt other k ≤ rows.countP (fun r => keyOf r = k) →
      (emitPass keyOf rows mine other).1.countP (fun r => keyOf r = k) =
        cnt mine k - cnt other k := by
  intro rows
  induction rows with
  | nil =>
    intro mine other k hle
    simp only [emitPass, List.countP_nil] at *
    omega
  | cons r rest ih =>
    intro mine other k hle
    rw [List.countP_cons] at hle
    rw [emitPass]
    simp only
    by_cases hemit : cnt other (keyOf r) < cnt mine (keyOf r)
    · rw [if_pos hemit]
      rw [List.countP_cons]
      by_cases hk : keyOf r = k
      · subst hk
        have hset : cnt (alistSet mine (keyOf r) (cnt mine (keyOf r) - 1)) (keyOf r) =
            cnt mine (keyOf r) - 1 := by rw [cnt_alistSet, if_pos rfl]
        have hle' : cnt (alistSet mine (keyOf r) (cnt mine (keyOf r) - 1)) (keyOf r) -
            cnt other (keyOf r) ≤ rest.countP (fun q => keyOf q = keyOf r) := by
          rw [hset]
          simp at hle
          omega
        have := ih (alistSet mine (keyOf r) (cnt mine (keyOf r) - 1)) other (keyOf r) hle'
        rw [this, hset]
        simp
        omega
      · have hset : cnt (alistSet mine (keyOf r) (cnt mine (keyOf r) - 1)) k = cnt mine k := by
          rw [cnt_alistSet, if_neg (fun hc => hk hc.symm)]
        have hle' : cnt (alistSet mine (keyOf r) (cnt mine (keyOf r) - 1)) k - cnt other k ≤
            rest.countP (fun q => keyOf q = k) := by
          rw [hset]
          simp [hk] at hle
          omega
        have := ih (alistSet mine (keyOf r) (cnt mine (keyOf r) - 1)) other k hle'
        rw [this, hset]
        simp [hk]
    · rw [if_neg hemit]
      by_cases hk : keyOf r = k
      · subst hk
        have hzero : cnt mine (keyOf r) - cnt other (keyOf r) = 0 := by omega
        have hle' : cnt mine (keyOf r) - cnt other (keyOf r) ≤
            rest.countP (fun q => keyOf q = keyOf r) := by omega
        rw [ih mine other (keyOf r) hle']
      · have hle' : cnt mine k - cnt other k ≤ rest.countP (fun q => keyOf q = k) := by
          simp [hk] at hle
          omega
        rw [ih mine other k hle']

lemma emitPass_final (keyOf : RecordMap → Str) :
    ∀ (rows : List RecordMap) (mine other : List (Str × Nat)) (k : Str),
      cnt mine k - cnt other k ≤ rows.countP (fun r => keyOf r = k) →
      cnt (emitPass keyOf rows mine other).2 k = min (cnt mine k) (cnt other k) := by
  intro rows
  induction rows with
  | nil =>
    intro mine other k hle
    simp only [emitPass, List.countP_nil] at *
    omega
  | cons r rest ih =>
    intro mine other k hle
    rw [List.countP_cons] at hle
    rw [emitPass]
    simp only
    by_cases hemit : cnt other (keyOf r) < cnt mine (keyOf r)
    · rw [if_pos hemit]
      by_cases hk : keyOf r = k
      · subst hk
        have hset : cnt (alistSet mine (keyOf r) (cnt mine (keyOf r) - 1)) (keyOf r) =
            cnt mine (keyOf r) - 1 := by rw [cnt_alistSet, if_pos rfl]
        have hle' : cnt (alistSet mine (keyOf r) (cnt mine (keyOf r) - 1)) (keyOf r) -
            cnt other (keyOf r) ≤ rest.countP (fun q => keyOf q = keyOf r) := by
          rw [hset]
          simp at hle
          omega
        rw [ih _ other (keyOf r) hle', hset]
        omega
      · have hset : cnt (alistSet mine (keyOf r) (cnt mine (keyOf r) - 1)) k = cnt mine k := by
          rw [cnt_alistSet, if_neg (fun hc => hk hc.symm)]
        have hle' : cnt (alistSet mine (keyOf r) (cnt mine (keyOf r) - 1)) k - cnt other k ≤
            rest.countP (fun q => keyOf q = k) := by
          rw [hset]
          simp [hk] at hle
          omega
        rw [ih _ other k hle', hset]
    · rw [if_neg hemit]
      by_cases hk : keyOf r = k
      · subst hk
        have hle' : cnt mine (keyOf r) - cnt other (keyOf r) ≤
            rest.countP (fun q => keyOf q = keyOf r) := by omega
        rw [ih mine other (keyOf r) hle']
      · have hle' : cnt mine k - cnt other k ≤ rest.countP (fun q => keyOf q = k) := by
          simp [hk] at hle
          omega
        rw [ih mine other k hle']

lemma emitPass_self (keyOf : RecordMap → Str) :
    ∀ (rows : List RecordMap) (m : List (Str × Nat)),
      emitPass keyOf rows m m = ([], m) := by
  intro rows
  induction rows with
  | nil => intro m; rfl
  | cons r rest ih =>
    intro m
    rw [emitPass]
    simp only
    rw [if_neg (by omega)]
    exact ih m

/-- C5 counterexample: when the two CSVs share no header, `compareCsv`
does not key rows by the (empty) common header set — it keys by the
deduplicated concatenation of both header lists, so the reported
"only in" count differs from the common-header multiset difference. -/
theorem compare_csv_counterexample :
    ((parseCsvText cxCompareLeft).1.filter (· ≠ [])).filter
        (fun h => ((parseCsvText cxCompareRight).1.filter (· ≠ [])).contains h) = [] ∧
    ¬ ((compareCsv cxCompareLeft cxCompareRight).onlyInLeft.countP
          (fun r => rowKeyOf [] r = []) =
        (parseCsvText cxCompareLeft).2.countP (fun r => rowKeyOf [] r = []) -
          (parseCsvText cxCompareRight).2.countP (fun r => rowKeyOf [] r = [])) := by
  constructor
  · decide
  · decide

/-- C5 (amended): `compareCsv` keys each side's rows by the trimmed
values of the common headers when at least one exists (else by the
suffix-deduplicated concatenation of both header lists, the
`compareKeyHeaders` list); a row key is reported "only in" a side exactly
as many times as its multiplicity there exceeds its multiplicity on the
other side, and comparing any CSV text to itself yields zero "only in"
entries on both sides. -/
theorem compare_multiset_difference :
    (∀ (leftCsv rightCsv : Str) (k : Str),
      (compareCsv leftCsv rightCsv).onlyInLeft.countP
          (fun r => rowKeyOf (compareKeyHeaders leftCsv rightCsv) r = k) =
        (parseCsvText leftCsv).2.countP
            (fun r => rowKeyOf (compareKeyHeaders leftCsv rightCsv) r = k) -
          (parseCsvText rightCsv).2.countP
            (fun r => rowKeyOf (compareKeyHeaders leftCsv rightCsv) r = k) ∧
      (compareCsv leftCsv rightCsv).onlyInRight.countP
          (fun r => rowKeyOf (compareKeyHeaders leftCsv rightCsv) r = k) =
        (parseCsvText rightCsv).2.countP
            (fun r => rowKeyOf (compareKeyHeaders leftCsv rightCsv) r = k) -
          (parseCsvText leftCsv).2.countP
            (fun r => rowKeyOf (compareKeyHeaders leftCsv rightCsv) r = k)) ∧
    (∀ text : Str,
      (compareCsv text text).onlyInLeft = [] ∧ (compareCsv text text).onlyInRight = []) := by
  constructor
  · intro leftCsv rightCsv k
    set kf := rowKeyOf (compareKeyHeaders leftCsv rightCsv) with hkf
    set L := (parseCsvText leftCsv).2 with hL
    set R := (parseCsvText rightCsv).2 with hR
    have hlc : ∀ k', cnt (bumpCounts kf L []) k' = L.countP (fun r => kf r = k') := by
      intro k'
      rw [cnt_bumpCounts]
      simp [cnt, alistLookup_nil]
    have hrc : ∀ k', cnt (bumpCounts kf R []) k' = R.countP (fun r => kf r = k') := by
      intro k'
      rw [cnt_bumpCounts]
      simp [cnt, alistLookup_nil]
    have hhypL : cnt (bumpCounts kf L []) k - cnt (bumpCounts kf R []) k ≤
        L.countP (fun r => kf r = k) := by
      rw [hlc]
      omega
    constructor
    · have := emitPass_count kf L (bumpCounts kf L []) (bumpCounts kf R []) k hhypL
      rw [compareCsv]
      simp only
      rw [this, hlc, hrc]
    · have hfin := emitPass_final kf L (bumpCounts kf L []) (bumpCounts kf R []) k hhypL
      have hhypR : cnt (bumpCounts kf R []) k -
          cnt (emitPass kf L (bumpCounts kf L []) (bumpCounts kf R [])).2 k ≤
          R.countP (fun r => kf r = k) := by
        rw [hfin, hrc]
        omega
      have := emitPass_count kf R (bumpCounts kf R [])
        (emitPass kf L (bumpCounts kf L []) (bumpCounts kf R [])).2 k hhypR
      rw [compareCsv]
      simp only
      rw [this, hfin, hlc, hrc]
      omega
  · intro text
    constructor
    · rw [compareCsv]
      simp only
      rw [emitPass_self]
    · rw [compareCsv]
      simp only
      rw [emitPass_self]
      simp only
      rw [emitPass_self]

lemma replaceCRLF_of_no_cr : ∀ {l : Str}, '\r' ∉ l → replaceCRLF l = l := by
  intro l
  induction l with
  | nil => intro _; rfl
  | cons c rest ih =>
    intro h
    have hc : c ≠ '\r' := fun he => h (he ▸ List.mem_cons_self c rest)
    have hrest : '\r' ∉ rest := fun hm => h (List.mem_cons_of_mem c hm)
    rw [replaceCRLF.eq_def]
    split
    · rename_i heq
      exact absurd heq (by simp)
    · rename_i tail heq
      rw [List.cons.injEq] at heq
      exact absurd heq.1 hc
    · rename_i c2 rest2 heq
      rw [List.cons.injEq] at heq
      obtain ⟨hc2, hrest2⟩ := heq
      subst hc2
      subst hrest2
      rw [ih hrest]

lemma replaceCR_of_no_cr {l : Str} (h : '\r' ∉ l) : replaceCR l = l := by
  rw [replaceCR]
  calc List.map (fun c => if c = '\r' then '\n' else c) l
      = List.map id l := by
        apply List.map_congr_left
        intro c hc
        simp only [id]
        rw [if_neg]
        intro he
        exact h (he ▸ hc)
    _ = l := List.map_id l

lemma mem_doubleQuotes : ∀ {v : Str} {x : Char}, x ∈ doubleQuotes v → x = '"' ∨ x ∈ v := by
  intro v
  induction v with
  | nil => intro x h; simp [doubleQuotes] at h
  | cons c rest ih =>
    intro x h
    rw [doubleQuotes] at h
    by_cases hc : c = '"'
    · rw [if_pos hc] at h
      rcases List.mem_cons.mp h with h1 | h1
      · exact Or.inl h1
      · rcases List.mem_cons.mp h1 with h2 | h2
        · exact Or.inl h2
        · rcases ih h2 with h3 | h3
          · exact Or.inl h3
          · exact Or.inr (List.mem_cons_of_mem c h3)
    · rw [if_neg hc] at h
      rcases List.mem_cons.mp h with h1 | h1
      · exact Or.inr (h1 ▸ List.mem_cons_self c rest)
      · rcases ih h1 with h3 | h3
        · exact Or.inl h3
        · exact Or.inr (List.mem_cons_of_mem c h3)

lemma mem_csvEscape {v : Str} {x : Char} (h : x ∈ csvEscape v) : x = '"' ∨ x ∈ v := by
  rw [csvEscape] at h
  split at h
  · rcases List.mem_cons.mp h with h1 | h1
    · exact Or.inl h1
    · rcases List.mem_append.mp h1 with h2 | h2
      · exact mem_doubleQuotes h2
      · rcases List.mem_cons.mp h2 with h3 | h3
        · exact Or.inl h3
        · simp at h3
  · exact mem_doubleQuotes h

lemma mem_joinList : ∀ {parts : List Str} {sep : Str} {x : Char},
    x ∈ joinList sep parts → x ∈ sep ∨ ∃ p ∈ parts, x ∈ p := by
  intro parts
  induction parts with
  | nil => intro sep x h; simp [joinList] at h
  | cons p rest ih =>
    intro sep x h
    cases rest with
    | nil =>
      exact Or.inr ⟨p, List.mem_cons_self p [], h⟩
    | cons q qs =>
      rw [joinList_cons_cons] at h
      rcases List.mem_append.mp h with h' | h'
      · rcases List.mem_append.mp h' with h'' | h''
        · exact Or.inr ⟨p, List.mem_cons_self p (q :: qs), h''⟩
        · exact Or.inl h''
      · rcases ih h' with h'' | h''
        · exact Or.inl h''
        · obtain ⟨r, hr, hxr⟩ := h''
          exact Or.inr ⟨r, List.mem_cons_of_mem p hr, hxr⟩

lemma no_cr_toCsv {headers : List Str} {rows : List RecordMap}
    (hh : ∀ h ∈ headers, '\r' ∉ h)
    (hv : ∀ r ∈ rows, ∀ h ∈ headers, '\r' ∉ lookupField r h) :
    '\r' ∉ toCsv headers rows := by
  intro hmem
  rw [toCsv] at hmem
  rcases mem_joinList hmem with h | h
  · simp at h
  · obtain ⟨line, hline, hxline⟩ := h
    rcases List.mem_cons.mp hline with hline' | hline'
    · subst hline'
      rcases mem_joinList hxline with h' | h'
      · simp at h'
      · obtain ⟨fld, hfld, hxfld⟩ := h'
        rw [List.mem_map] at hfld
        obtain ⟨hd, hhd, rfl⟩ := hfld
        rcases mem_csvEscape hxfld with h'' | h''
        · simp at h''
        · exact hh hd hhd h''
    · rw [List.mem_map] at hline'
      obtain ⟨r, hr, rfl⟩ := hline'
      rcases mem_joinList hxline with h' | h'
      · simp at h'
      · obtain ⟨fld, hfld, hxfld⟩ := h'
        rw [List.mem_map] at hfld
        obtain ⟨hd, hhd, rfl⟩ := hfld
        rcases mem_csvEscape hxfld with h'' | h''
        · simp at h''
        · exact hv r hr hd hhd h''

lemma doubleQuotes_of_no_quote : ∀ {v : Str}, '"' ∉ v → doubleQuotes v = v := by
  intro v
  induction v with
  | nil => intro _; rfl
  | cons c rest ih =>
    intro h
    have hc : c ≠ '"' := fun he => h (he ▸ List.mem_cons_self c rest)
    have hrest : '"' ∉ rest := fun hm => h (List.mem_cons_of_mem c hm)
    rw [doubleQuotes, if_neg hc, ih hrest]

lemma parseRows_quoted :
    ∀ (v s cur : Str) (row : List Str) (acc : List (List Str)),
      s.head? ≠ some '"' →
      parseRows (doubleQuotes v ++ '"' :: s) true cur row acc =
        parseRows s false (cur ++ v) row acc := by
  intro v
  induction v with
  | nil =>
    intro s cur row acc hs
    cases s with
    | nil => simp [doubleQuotes, parseRows]
    | cons c s' =>
      have hc : c ≠ '"' := by simpa using hs
      simp [doubleQuotes, parseRows, hc]
  | cons a v' ih =>
    intro s cur row acc hs
    by_cases ha : a = '"'
    · subst ha
      rw [doubleQuotes, if_pos rfl]
      have : ('"' :: '"' :: doubleQuotes v') ++ '"' :: s =
          '"' :: '"' :: (doubleQuotes v' ++ '"' :: s) := by simp
      rw [this]
      rw [show parseRows ('"' :: '"' :: (doubleQuotes v' ++ '"' :: s)) true cur row acc =
          parseRows (doubleQuotes v' ++ '"' :: s) true (cur ++ ['"']) row acc from rfl]
      rw [ih s (cur ++ ['"']) row acc hs]
      simp
    · rw [doubleQuotes, if_neg ha]
      have : (a :: doubleQuotes v') ++ '"' :: s = a :: (doubleQuotes v' ++ '"' :: s) := by simp
      rw [this]
      have hstep : parseRows (a :: (doubleQuotes v' ++ '"' :: s)) true cur row acc =
          parseRows (doubleQuotes v' ++ '"' :: s) true (cur ++ [a]) row acc := by
        simp [parseRows, ha]
      rw [hstep, ih s (cur ++ [a]) row acc hs]
      simp

lemma parseRows_unquoted :
    ∀ (v s cur : Str) (row : List Str) (acc : List (List Str)),
      (∀ c ∈ v, c ≠ '"' ∧ c ≠ ',' ∧ c ≠ '\n') →
      parseRows (v ++ s) false cur row acc = parseRows s false (cur ++ v) row acc := by
  intro v
  induction v with
  | nil => intro s cur row acc _; simp
  | cons a v' ih =>
    intro s cur row acc hv
    obtain ⟨ha1, ha2, ha3⟩ := hv a (List.mem_cons_self a v')
    have hstep : parseRows (a :: (v' ++ s)) false cur row acc =
        parseRows (v' ++ s) false (cur ++ [a]) row acc := by
      simp [parseRows, ha1, ha2, ha3]
    rw [List.cons_append, hstep, ih s (cur ++ [a]) row acc
      (fun c hc => hv c (List.mem_cons_of_mem a hc))]
    simp

lemma parseRows_field (v s cur : Str) (row : List Str) (acc : List (List Str))
    (hs : s.head? ≠ some '"') :
    parseRows (csvEscape v ++ s) false cur row acc = parseRows s false (cur ++ v) row acc := by
  rw [csvEscape]
  by_cases hq : mustQuote v
  · rw [if_pos hq]
    have : ('"' :: (doubleQuotes v ++ ['"'])) ++ s = '"' :: (doubleQuotes v ++ '"' :: s) := by
      simp
    rw [this]
    have hstep : parseRows ('"' :: (doubleQuotes v ++ '"' :: s)) false cur row acc =
        parseRows (doubleQuotes v ++ '"' :: s) true cur row acc := by
      simp [parseRows]
    rw [hstep, parseRows_quoted v s cur row acc hs]
  · rw [if_neg hq]
    rw [mustQuote] at hq
    have hv : ∀ c ∈ v, c ≠ '"' ∧ c ≠ ',' ∧ c ≠ '\n' := by
      intro c hc
      by_contra hcon
      apply hq
      rw [List.any_eq_true]
      refine ⟨c, hc, ?_⟩
      simp only [decide_eq_true_eq]
      tauto
    have hnq : '"' ∉ v := fun hm => (hv '"' hm).1 rfl
    rw [doubleQuotes_of_no_quote hnq]
    exact parseRows_unquoted v s cur row acc hv

lemma parseRows_fieldlist :
    ∀ (vs : List Str), vs ≠ [] →
      ∀ (s : Str) (row : List Str) (acc : List (List Str)), s.head? ≠ some '"' →
      parseRows (joinList [','] (vs.map csvEscape) ++ s) false [] row acc =
        parseRows s false (vs.getLast?.getD []) (row ++ vs.dropLast) acc := by
  intro vs
  induction vs with
  | nil => intro h; exact absurd rfl h
  | cons v vs' ih =>
    intro _ s row acc hs
    cases hvs' : vs' with
    | nil =>
      simp only [List.map_cons, List.map_nil, joinList]
      rw [parseRows_field v s [] row acc hs]
      simp
    | cons w ws =>
      rw [← hvs']
      have hne : vs' ≠ [] := by rw [hvs']; simp
      have hmapne : vs'.map csvEscape ≠ [] := by
        rw [hvs']; simp
      have hjoin : joinList [','] ((v :: vs').map csvEscape) =
          csvEscape v ++ [','] ++ joinList [','] (vs'.map csvEscape) := by
        rw [List.map_cons]
        cases hm : vs'.map csvEscape with
        | nil => exact absurd hm hmapne
        | cons y ys => rw [joinList_cons_cons]
      rw [hjoin]
      have hassoc : (csvEscape v ++ [','] ++ joinList [','] (vs'.map csvEscape)) ++ s =
          csvEscape v ++ (',' :: (joinList [','] (vs'.map csvEscape) ++ s)) := by simp
      rw [hassoc]
      rw [parseRows_field v _ [] row acc (by simp)]
      have hstep : parseRows (',' :: (joinList [','] (vs'.map csvEscape) ++ s)) false
          ([] ++ v) row acc =
          parseRows (joinList [','] (vs'.map csvEscape) ++ s) false [] (row ++ [[] ++ v]) acc := by
        simp [parseRows]
      rw [hstep, ih hne s (row ++ [[] ++ v]) acc hs]
      have hlast : (v :: vs').getLast? = vs'.getLast? := by
        rw [hvs', List.getLast?_cons_cons]
      have hdrop : (v :: vs').dropLast = v :: vs'.dropLast := List.dropLast_cons_of_ne_nil hne
      rw [hlast, hdrop]
      simp

lemma parseRows_lines :
    ∀ (lines : List (List Str)), (∀ fl ∈ lines, fl ≠ []) → lines ≠ [] →
      ∀ (acc : List (List Str)),
      parseRows (joinList ['\n'] (lines.map (fun vs => joinList [','] (vs.map csvEscape))))
          false [] [] acc =
        acc ++ lines := by
  intro lines
  induction lines with
  | nil => intro _ h; exact absurd rfl h
  | cons l ls ih =>
    intro hne _ acc
    have hl : l ≠ [] := hne l (List.mem_cons_self l ls)
    cases hls : ls with
    | nil =>
      simp only [List.map_cons, List.map_nil, joinList]
      have := parseRows_fieldlist l hl [] [] acc (by simp)
      rw [List.append_nil] at this
      rw [this]
      rw [List.getLast?_eq_getLast l hl]
      simp only [parseRows, Option.getD_some]
      rw [List.nil_append, List.dropLast_append_getLast hl]
    | cons m ms =>
      rw [← hls]
      have hlsne : ls ≠ [] := by rw [hls]; simp
      have hmapne : ls.map (fun vs => joinList [','] (vs.map csvEscape)) ≠ [] := by
        rw [hls]; simp
      have hjoin : joinList ['\n'] ((l :: ls).map (fun vs => joinList [','] (vs.map csvEscape))) =
          joinList [','] (l.map csvEscape) ++ ['\n'] ++
            joinList ['\n'] (ls.map (fun vs => joinList [','] (vs.map csvEscape))) := by
        rw [List.map_cons]
        cases hm : ls.map (fun vs => joinList [','] (vs.map csvEscape)) with
        | nil => exact absurd hm hmapne
        | cons y ys => rw [joinList_cons_cons]
      rw [hjoin]
      have hassoc : (joinList [','] (l.map csvEscape) ++ ['\n'] ++
          joinList ['\n'] (ls.map (fun vs => joinList [','] (vs.map csvEscape)))) =
          joinList [','] (l.map csvEscape) ++
            ('\n' :: joinList ['\n'] (ls.map (fun vs => joinList [','] (vs.map csvEscape)))) := by
        simp
      rw [hassoc]
      rw [parseRows_fieldlist l hl _ [] acc (by simp)]
      have hstep : parseRows
          ('\n' :: joinList ['\n'] (ls.map (fun vs => joinList [','] (vs.map csvEscape)))) false
          (l.getLast?.getD []) ([] ++ l.dropLast) acc =
          parseRows (joinList ['\n'] (ls.map (fun vs => joinList [','] (vs.map csvEscape)))) false
            [] [] (acc ++ [([] ++ l.dropLast) ++ [l.getLast?.getD []]]) := by
        simp [parseRows]
      rw [hstep, ih (fun fl hfl => hne fl (List.mem_cons_of_mem l hfl)) hlsne]
      rw [List.getLast?_eq_getLast l hl]
      simp only [Option.getD_some, List.nil_append]
      rw [List.dropLast_append_getLast hl]
      simp

lemma dropTrailingBlanks_of_last {rowsRaw : List (List Str)} {lr : List Str}
    (hlast : rowsRaw.getLast? = some lr) (hblank : lr.all isBlankField = false) :
    dropTrailingBlanks rowsRaw = rowsRaw := by
  rw [dropTrailingBlanks]
  have hrev : rowsRaw.reverse.head? = some lr := by rw [List.head?_reverse]; exact hlast
  cases hcase : rowsRaw.reverse with
  | nil => rw [hcase] at hrev; simp at hrev
  | cons x xs =>
    rw [hcase] at hrev
    have hx : x = lr := by simpa using hrev
    subst hx
    rw [List.dropWhile_cons, hblank]
    simp only [Bool.false_eq_true, if_false]
    rw [← hcase, List.reverse_reverse]

lemma fold_set_preserves (headers : List Str) (arr : List Str) :
    ∀ (idxs : List Nat) (start : RecordMap) (k : Str),
      (∀ j ∈ idxs, fieldName headers j ≠ k) →
      alistLookup (idxs.foldl
        (fun r i => alistSet r (fieldName headers i) (arr.getD i [])) start) k =
        alistLookup start k := by
  intro idxs
  induction idxs with
  | nil => intro start k _; rfl
  | cons i idxs' ih =>
    intro start k hk
    rw [List.foldl_cons, ih _ k (fun j hj => hk j (List.mem_cons_of_mem i hj)),
      alistLookup_alistSet, if_neg]
    intro he
    exact hk i (List.mem_cons_self i idxs') he.symm

lemma fold_set_lookup (headers : List Str) (arr : List Str) :
    ∀ (idxs : List Nat) (start : RecordMap) (k : Str) (i0 : Nat),
      idxs.Nodup →
      (∀ j ∈ idxs, fieldName headers j = k → j = i0) →
      i0 ∈ idxs → fieldName headers i0 = k →
      alistLookup (idxs.foldl
        (fun r i => alistSet r (fieldName headers i) (arr.getD i [])) start) k =
        some (arr.getD i0 []) := by
  intro idxs
  induction idxs with
  | nil => intro start k i0 _ _ hmem; simp at hmem
  | cons i idxs' ih =>
    intro start k i0 hnd hinj hmem hk
    rw [List.foldl_cons]
    by_cases hi : i = i0
    · subst hi
      have hnotin : ∀ j ∈ idxs', fieldName headers j ≠ k := by
        intro j hj he
        have := hinj j (List.mem_cons_of_mem i hj) he
        subst this
        exact (List.nodup_cons.mp hnd).1 hj
      rw [fold_set_preserves headers arr idxs' _ k hnotin, alistLookup_alistSet, if_pos hk.symm]
    · have hmem' : i0 ∈ idxs' := by
        rcases List.mem_cons.mp hmem with h | h
        · exact absurd h.symm hi
        · exact h
      exact ih _ k i0 (List.nodup_cons.mp hnd).2
        (fun j hj he => hinj j (List.mem_cons_of_mem i hj) he) hmem' hk

lemma getLast?_cons_of_ne {α : Type} (a : α) {l : List α} (h : l ≠ []) :
    (a :: l).getLast? = l.getLast? := by
  cases l with
  | nil => exact absurd rfl h
  | cons b t => exact List.getLast?_cons_cons

lemma parsed_csv_eq (headers : List Str) (rows : List RecordMap)
    (hne : headers ≠ [])
    (hh : ∀ h ∈ headers, h ≠ [] ∧ jsTrim h = h ∧ '\r' ∉ h)
    (hv : ∀ r ∈ rows, ∀ h ∈ headers, '\r' ∉ lookupField r h)
    (hlast : ∀ lr, rows.getLast? = some lr → ∃ h ∈ headers, jsTrim (lookupField lr h) ≠ []) :
    parseCsvText (toCsv headers rows) =
      (headers, (rows.map (fun r => headers.map (fun h => lookupField r h))).map
        (fun arr => (List.range headers.length).foldl
          (fun r i => alistSet r (fieldName headers i) (arr.getD i [])) [])) := by
  have hnocr : '\r' ∉ toCsv headers rows :=
    no_cr_toCsv (fun h hm => (hh h hm).2.2) hv
  have htext : toCsv headers rows =
      joinList ['\n'] ((headers :: rows.map (fun r => headers.map (fun h => lookupField r h))).map
        (fun vs => joinList [','] (vs.map csvEscape))) := by
    rw [toCsv, List.map_cons]
    congr 1
    congr 1
    rw [List.map_map]
    apply List.map_congr_left
    intro r _
    rw [Function.comp, List.map_map]
    rfl
  have hflne : ∀ fl ∈ headers :: rows.map (fun r => headers.map (fun h => lookupField r h)),
      fl ≠ [] := by
    intro fl hfl
    rcases List.mem_cons.mp hfl with h | h
    · rw [h]; exact hne
    · rw [List.mem_map] at h
      obtain ⟨r, _, rfl⟩ := h
      rw [Ne, List.map_eq_nil_iff]
      exact hne
  have hparse : parseRows (replaceCR (replaceCRLF (toCsv headers rows))) false [] [] [] =
      headers :: rows.map (fun r => headers.map (fun h => lookupField r h)) := by
    rw [replaceCRLF_of_no_cr hnocr, replaceCR_of_no_cr hnocr, htext,
      parseRows_lines _ hflne (by simp) []]
    rw [List.nil_append]
  have hblankfac : ∃ lr,
      (headers :: rows.map (fun r => headers.map (fun h => lookupField r h))).getLast? = some lr ∧
        lr.all isBlankField = false := by
    cases hrows : rows with
    | nil =>
      refine ⟨headers, by simp, ?_⟩
      rw [List.all_eq_false]
      obtain ⟨h0, hh0⟩ : ∃ h0, h0 ∈ headers := by
        cases headers with
        | nil => exact absurd rfl hne
        | cons a t => exact ⟨a, List.mem_cons_self a t⟩
      refine ⟨h0, hh0, ?_⟩
      simp only [isBlankField, decide_eq_true_eq, Bool.not_eq_true]
      rw [(hh h0 hh0).2.1]
      simpa using (hh h0 hh0).1
    | cons r0 rs =>
      rw [← hrows]
      have hrne : rows ≠ [] := by rw [hrows]; simp
      obtain ⟨lr, hlr⟩ : ∃ lr, rows.getLast? = some lr :=
        ⟨rows.getLast hrne, List.getLast?_eq_getLast rows hrne⟩
      obtain ⟨h0, hh0, hval⟩ := hlast lr hlr
      refine ⟨headers.map (fun h => lookupField lr h), ?_, ?_⟩
      · rw [getLast?_cons_of_ne _ (by rw [Ne, List.map_eq_nil_iff]; exact hrne),
          List.getLast?_map, hlr]
        rfl
      · rw [List.all_eq_false]
        refine ⟨lookupField lr h0, List.mem_map.mpr ⟨h0, hh0, rfl⟩, ?_⟩
        simpa [isBlankField] using hval
  obtain ⟨lr, hlr, hlrb⟩ := hblankfac
  have hhtrim : headers.map jsTrim = headers := by
    calc headers.map jsTrim = headers.map id :=
          List.map_congr_left (fun h hm => (hh h hm).2.1)
    _ = headers := List.map_id headers
  simp only [parseCsvText]
  rw [hparse, dropTrailingBlanks_of_last hlr hlrb]
  simp only [List.headD_cons, List.tail_cons]
  rw [hhtrim]

/-- C2 counterexample: the decoder trims header cells, so a header with
leading whitespace does not survive an encode-decode round trip. -/
theorem csv_round_trip_counterexample :
    ¬ ((parseCsvText (toCsv [[' ', 'a']] [[([' ', 'a'], ['x'])]])).1 = [[' ', 'a']]) := by
  decide

/-- C2 (amended): the CSV round trip reproduces the headers and every
record's values on the header set, provided every header is non-empty,
trim-invariant and carriage-return-free, the headers are pairwise
distinct, no value contains a carriage return, and the last record is not
entirely blank after trimming (the decoder trims header cells and pops
every trailing all-blank row, which is where the extra hypotheses come
from). -/
theorem csv_round_trip (headers : List Str) (rows : List RecordMap)
    (hne : headers ≠ [])
    (hh : ∀ h ∈ headers, h ≠ [] ∧ jsTrim h = h ∧ '\r' ∉ h)
    (hnd : headers.Nodup)
    (hv : ∀ r ∈ rows, ∀ h ∈ headers, '\r' ∉ lookupField r h)
    (hlast : ∀ lr, rows.getLast? = some lr → ∃ h ∈ headers, jsTrim (lookupField lr h) ≠ []) :
    (parseCsvText (toCsv headers rows)).1 = headers ∧
    (parseCsvText (toCsv headers rows)).2.length = rows.length ∧
    ∀ (i : Nat) (h : Str), h ∈ headers →
      lookupField ((parseCsvText (toCsv headers rows)).2.getD i []) h =
        lookupField (rows.getD i []) h := by
  have hPT := parsed_csv_eq headers rows hne hh hv hlast
  refine ⟨by rw [hPT], by rw [hPT]; simp, ?_⟩
  intro i h hmem
  rw [hPT]
  obtain ⟨i0, hlen, hget⟩ := List.mem_iff_getElem.mp hmem
  by_cases hi : i < rows.length
  · have hgd : ((rows.map (fun r => headers.map (fun hd => lookupField r hd))).map
        (fun arr => (List.range headers.length).foldl
          (fun r j => alistSet r (fieldName headers j) (arr.getD j [])) [])).getD i [] =
        (List.range headers.length).foldl
          (fun r j => alistSet r (fieldName headers j)
            ((headers.map (fun hd => lookupField (rows.getD i []) hd)).getD j [])) [] := by
      rw [List.getD_eq_getElem?_getD, List.getElem?_map, List.getElem?_map]
      rw [List.getElem?_eq_getElem hi]
      simp only [Option.map_some', Option.getD_some]
      rw [List.getD_eq_getElem?_getD, List.getElem?_eq_getElem hi]
      rfl
    rw [hgd]
    have hfn : fieldName headers i0 = h := by
      simp only [fieldName]
      rw [List.getD_eq_getElem?_getD, List.getElem?_eq_getElem hlen, Option.getD_some, hget]
      rw [if_neg]
      exact (hh h hmem).1
    have harr : (headers.map (fun hd => lookupField (rows.getD i []) hd)).getD i0 [] =
        lookupField (rows.getD i []) h := by
      rw [List.getD_eq_getElem?_getD, List.getElem?_map, List.getElem?_eq_getElem hlen]
      simp only [Option.map_some', Option.getD_some]
      rw [hget]
    have hinj : ∀ j ∈ List.range headers.length, fieldName headers j = h → j = i0 := by
      intro j hj he
      rw [List.mem_range] at hj
      simp only [fieldName] at he
      rw [List.getD_eq_getElem?_getD, List.getElem?_eq_getElem hj, Option.getD_some] at he
      by_cases hempty : headers[j] = []
      · exact absurd hempty ((hh _ (List.getElem_mem hj)).1)
      · rw [if_neg hempty] at he
        have : headers[j] = headers[i0] := by rw [he, hget]
        exact (List.Nodup.getElem_inj_iff hnd).mp this
    have := fold_set_lookup headers
      (headers.map (fun hd => lookupField (rows.getD i []) hd))
      (List.range headers.length) [] h i0
      (List.nodup_range headers.length)
      hinj (List.mem_range.mpr hlen) hfn
    rw [lookupField, this, harr, Option.getD_some]
  · rw [List.getD_eq_default _ _ (by simpa using Nat.le_of_not_lt hi),
      List.getD_eq_default _ _ (Nat.le_of_not_lt hi)]

/-- C2 witness: the round trip at a concrete record set whose values
contain commas, quotes and newlines. -/
theorem csv_round_trip_witness :
    lookupField ((parseCsvText (toCsv [['a'], ['b']]
        [[(['a'], ['x', ',', '"', 'y', '"', '\n', 'z']), (['b'], ['w'])]])).2.getD 0 []) ['a'] =
      lookupField ([[(['a'], ['x', ',', '"', 'y', '"', '\n', 'z']),
        (['b'], ['w'])]].getD 0 []) ['a'] :=
  (csv_round_trip [['a'], ['b']]
      [[(['a'], ['x', ',', '"', 'y', '"', '\n', 'z']), (['b'], ['w'])]]
      (by decide)
      (by decide)
      (by decide)
      (by decide)
      (by decide)).2.2 0 ['a'] (by decide)

end XP
